import Mathlib

/-!
Verification of the `wit-abi` Markdown renderer (`src/wit-abi/src/main.rs`).

The renderer consumes a pre-parsed WIT interface (the `wit_parser::Interface`
typed graph), walks its named types and its functions in declaration order,
and accumulates a Markdown string (`src`), a cross-reference registry
(`hrefs : HashMap<String, String>`) and the two banner counters
(`funcs`, `types`).

Embedding notes:
* The `Interface` data model mirrors `wit_parser`'s `Type` / `TypeDef` /
  `TypeDefKind` / `Function` structures as consumed by `main.rs`; arena ids
  (`TypeId`, `ResourceId`) become indices into the `types` / `resources`
  lists.
* The output buffer is modelled as the chronological trace of `push_str`
  calls (`outs`); the rendered text is its concatenation (`Markdown.src`).
  Each trace element carries a `Bool` that is `true` exactly for the two
  banner pushes (`# Types`, `# Functions`), so that "the banner is emitted
  exactly once" is statable; the flag does not influence the text.
* `hrefs` is modelled as the chronological list of insertions.
* `SizeAlign` (the layout oracle from `wit_parser`, filled by
  `self.sizes.fill(iface)`) is external to this repository and is modelled
  as an abstract pair of functions, universally quantified in the theorems.
* `print_ty` recurses through the type table, which may be cyclic, so the
  embedding carries a fuel parameter; running out of fuel, a dangling id, an
  unknown resource and the `unreachable!()` arm all return `none`.
* `heck::to_snake_case` (external crate) is modelled for ASCII input,
  following heck's word-splitting algorithm.
-/

namespace WitAbi

/-! ## Data model (`wit_parser` structures as used by `main.rs`) -/

/-- `wit_parser::Type`: primitive tags, a resource handle, or an index into
the type table. -/
inductive Ty where
  | unit | bool | u8 | s8 | u16 | s16 | u32 | s32 | u64 | s64
  | float32 | float64 | char | string
  | handle (rid : Nat)
  | id (tid : Nat)
deriving DecidableEq, Repr

/-- `wit_parser::Docs`. -/
structure Docs where
  contents : Option String
deriving DecidableEq, Repr

/-- A record field: name, type, documentation. -/
structure RecField where
  name : String
  ty : Ty
  docs : Docs
deriving DecidableEq, Repr

/-- `wit_parser::Record`. -/
structure Record where
  fields : List RecField
deriving DecidableEq, Repr

/-- `wit_parser::Tuple`. -/
structure Tuple where
  types : List Ty
deriving DecidableEq, Repr

/-- One flag of a flags type. -/
structure Flag where
  name : String
  docs : Docs
deriving DecidableEq, Repr

/-- `wit_parser::Flags`. -/
structure Flags where
  flags : List Flag
deriving DecidableEq, Repr

/-- A variant case: name, payload type, documentation. -/
structure Case where
  name : String
  ty : Ty
  docs : Docs
deriving DecidableEq, Repr

/-- `wit_parser::Variant`. -/
structure Variant where
  cases : List Case
deriving DecidableEq, Repr

/-- One case of an enum. -/
structure EnumCase where
  name : String
  docs : Docs
deriving DecidableEq, Repr

/-- `wit_parser::Enum`. -/
structure Enum where
  cases : List EnumCase
deriving DecidableEq, Repr

/-- One case of a union: payload type and documentation (no name). -/
structure UnionCase where
  ty : Ty
  docs : Docs
deriving DecidableEq, Repr

/-- `wit_parser::Union`. -/
structure Union where
  cases : List UnionCase
deriving DecidableEq, Repr

/-- `wit_parser::Expected` (ok/err result type). -/
structure Expected where
  ok : Ty
  err : Ty
deriving DecidableEq, Repr

/-- `wit_parser::Stream` (element plus end-of-stream payload). -/
structure Stream where
  element : Ty
  end_ : Ty
deriving DecidableEq, Repr

/-- `wit_parser::TypeDefKind`: the closed set of shape tags. -/
inductive TypeDefKind where
  | record (r : Record)
  | flags (f : Flags)
  | tuple (t : Tuple)
  | variant (v : Variant)
  | enum (e : Enum)
  | option (t : Ty)
  | expected (e : Expected)
  | union (u : Union)
  | list (t : Ty)
  | future (t : Ty)
  | stream (s : Stream)
  | type (t : Ty)
deriving DecidableEq, Repr

/-- `wit_parser::TypeDef`: optional name, shape, documentation. -/
structure TypeDef where
  name : Option String
  kind : TypeDefKind
  docs : Docs
deriving DecidableEq, Repr

/-- A resource (only its name is consumed, for `handle<...>`). -/
structure Resource where
  name : String
deriving DecidableEq, Repr

/-- `wit_parser::Function` as consumed: name, named parameters, single
result type, documentation. -/
structure Func where
  name : String
  params : List (String × Ty)
  result : Ty
  docs : Docs
deriving DecidableEq, Repr

/-- `wit_parser::Interface`: the typed graph the renderer walks. -/
structure Interface where
  types : List TypeDef
  functions : List Func
  resources : List Resource
deriving DecidableEq, Repr

/-- The layout oracle `wit_parser::sizealign::SizeAlign` after
`fill(iface)`: size and alignment queries for a type reference. Its
computation is outside this repository, so it is abstract here. -/
structure SizeAlign where
  size : Ty → Nat
  align : Ty → Nat

/-! ## `heck::to_snake_case`, modelled for ASCII input

`heck` splits the input into words (non-alphanumeric characters separate
words and are dropped; inside an alphanumeric run a new word starts after a
lowercase-mode character that is followed by an uppercase one, and before
the last uppercase character of an uppercase run that is followed by a
lowercase one), lowercases each word and joins them with `_`. -/

/-- heck's scanning mode. -/
inductive WordMode where
  | boundary | lower | upper
deriving DecidableEq, Repr

/-- Split one alphanumeric run at camel-case boundaries, as heck does.
Arguments: remaining characters, current word (reversed), current mode. -/
def camelWords : List Char → List Char → WordMode → List (List Char)
  | [], [], _ => []
  | [], cur, _ => [cur.reverse]
  | c :: rest, cur, mode =>
    match rest with
    | [] => [(c :: cur).reverse]
    | next :: _ =>
      let nextMode :=
        if c.isLower then WordMode.lower
        else if c.isUpper then WordMode.upper
        else mode
      if nextMode = WordMode.lower ∧ next.isUpper then
        (c :: cur).reverse :: camelWords rest [] WordMode.boundary
      else if mode = WordMode.upper ∧ c.isUpper ∧ next.isLower then
        cur.reverse :: camelWords rest [c] WordMode.boundary
      else
        camelWords rest (c :: cur) nextMode

/-- Split a string into its maximal alphanumeric runs, dropping separators.
Arguments: remaining characters, current run (reversed). -/
def alnumRuns : List Char → List Char → List (List Char)
  | [], [] => []
  | [], cur => [cur.reverse]
  | c :: rest, cur =>
    if c.isAlphanum then alnumRuns rest (c :: cur)
    else if cur.isEmpty then alnumRuns rest []
    else cur.reverse :: alnumRuns rest []

/-- `heck::to_snake_case` on ASCII: words, lowercased, joined by `_`. -/
def toSnakeCase (s : String) : String :=
  let words := (alnumRuns s.data []).flatMap (fun w => camelWords w [] WordMode.boundary)
  String.intercalate "_" (words.map (fun w => String.mk (w.map Char.toLower)))

/-! ## Renderer state -/

/-- The `Markdown` struct of `main.rs`. The output buffer `src` is kept as
the chronological list of `push_str` calls; the `Bool` tags the two banner
pushes (and nothing else) so that banner emission is observable. `hrefs`
is the chronological insertion list of the anchor registry. -/
structure Markdown where
  outs : List (Bool × String)
  hrefs : List (String × String)
  funcs : Nat
  types : Nat
deriving DecidableEq, Repr

/-- The fresh state `render_file` constructs for each pass. -/
def initMarkdown : Markdown := ⟨[], [], 0, 0⟩

/-- `self.src.push_str(s)` (ordinary text). -/
def push (m : Markdown) (s : String) : Markdown :=
  { m with outs := m.outs ++ [(false, s)] }

/-- `self.src.push_str(s)` for one of the two banner pushes. -/
def pushB (m : Markdown) (s : String) : Markdown :=
  { m with outs := m.outs ++ [(true, s)] }

/-- `self.hrefs.insert(k, v)`. -/
def insertHref (m : Markdown) (k v : String) : Markdown :=
  { m with hrefs := m.hrefs ++ [(k, v)] }

/-- The rendered text: concatenation of all pushes, in order. -/
def Markdown.src (m : Markdown) : String :=
  String.join (m.outs.map Prod.snd)

/-- Last-insertion-wins lookup, the `HashMap` view of the `hrefs` trace. -/
def Markdown.lookupHref (m : Markdown) (k : String) : Option String :=
  (m.hrefs.reverse.lookup k)

/-- Rust's `str::lines`: split on `\n`, no trailing empty line. -/
def rustLines (s : String) : List String :=
  if s.isEmpty then []
  else
    let parts := s.splitOn "\n"
    if s.endsWith "\n" then parts.dropLast else parts

/-- `Markdown::docs`: each line trimmed and re-indented by two spaces. -/
def docs (m : Markdown) (d : Docs) : Markdown :=
  match d.contents with
  | Option.none => m
  | Option.some s =>
    (rustLines s).foldl (fun m line => push (push (push m "  ") line.trim) "\n") m

/-- `Markdown::print_type_header`: emit the `# Types` banner on the first
named type, the level-2 self-anchored header, and register the anchor. -/
def print_type_header (m : Markdown) (name : String) : Markdown :=
  let m := if m.types = 0 then pushB m "# Types\n\n" else m
  let m := { m with types := m.types + 1 }
  let m := push m ("## <a href=\"#" ++ toSnakeCase name ++ "\" name=\"" ++ toSnakeCase name
    ++ "\"></a> `" ++ name ++ "`: ")
  insertHref m name ("#" ++ toSnakeCase name)

/-- `Markdown::print_type_info`: documentation, then the size/alignment
line queried from the layout oracle at `Type::Id(ty)`. -/
def print_type_info (sa : SizeAlign) (m : Markdown) (ty : Nat) (d : Docs) : Markdown :=
  let m := docs m d
  let m := push m "\n"
  let m := push m ("Size: " ++ toString (sa.size (Ty.id ty)) ++ ", ")
  push m ("Alignment: " ++ toString (sa.align (Ty.id ty)) ++ "\n")

/-! ## The type printer

`Markdown::print_ty`. The Rust function recurses through the type table
(which may be cyclic through named types), so the embedding decreases a
fuel counter at every recursive step; `none` models a pass that aborts
(out of fuel, dangling id, unknown resource, or the `unreachable!()` arm
for an inlined variant). The comma-separated element loops of the
`Tuple`/`Record`/`Union` arms are the `enumerate` loops of the source,
with the `i > 0` separator test carried as a `first : Bool` flag. -/
def print_ty (iface : Interface) : Nat → Ty → Bool → Markdown → Option Markdown
  | 0, _, _, _ => Option.none
  | _ + 1, Ty.unit, _, m => Option.some (push m "`unit`")
  | _ + 1, Ty.bool, _, m => Option.some (push m "`bool`")
  | _ + 1, Ty.u8, _, m => Option.some (push m "`u8`")
  | _ + 1, Ty.s8, _, m => Option.some (push m "`s8`")
  | _ + 1, Ty.u16, _, m => Option.some (push m "`u16`")
  | _ + 1, Ty.s16, _, m => Option.some (push m "`s16`")
  | _ + 1, Ty.u32, _, m => Option.some (push m "`u32`")
  | _ + 1, Ty.s32, _, m => Option.some (push m "`s32`")
  | _ + 1, Ty.u64, _, m => Option.some (push m "`u64`")
  | _ + 1, Ty.s64, _, m => Option.some (push m "`s64`")
  | _ + 1, Ty.float32, _, m => Option.some (push m "`float32`")
  | _ + 1, Ty.float64, _, m => Option.some (push m "`float64`")
  | _ + 1, Ty.char, _, m => Option.some (push m "`char`")
  | _ + 1, Ty.string, _, m => Option.some (push m "`string`")
  | _ + 1, Ty.handle rid, _, m =>
    match iface.resources.get? rid with
    | Option.none => Option.none
    | Option.some r => Option.some (push (push (push m "handle<") r.name) ">")
  | fuel + 1, Ty.id tid, skipName, m =>
    match iface.types.get? tid with
    | Option.none => Option.none
    | Option.some td =>
      match skipName, td.name with
      | false, Option.some name =>
        Option.some (push m ("[`" ++ name ++ "`](#" ++ toSnakeCase name ++ ")"))
      | _, _ =>
        match td.kind with
        | TypeDefKind.type t => print_ty iface fuel t false m
        | TypeDefKind.tuple t =>
          match t.types.foldlM
              (fun (acc : Markdown × Bool) f =>
                (print_ty iface fuel f false
                    (if acc.2 then acc.1 else push acc.1 ", ")).map (fun m2 => (m2, false)))
              (push m "(", true) with
          | Option.none => Option.none
          | Option.some acc => Option.some (push acc.1 ")")
        | TypeDefKind.option t =>
          match print_ty iface fuel t false (push m "option<") with
          | Option.none => Option.none
          | Option.some m => Option.some (push m ">")
        | TypeDefKind.expected e =>
          match print_ty iface fuel e.ok false (push m "expected<") with
          | Option.none => Option.none
          | Option.some m =>
            match print_ty iface fuel e.err false (push m ", ") with
            | Option.none => Option.none
            | Option.some m => Option.some (push m ">")
        | TypeDefKind.variant _ => Option.none
        | TypeDefKind.list t =>
          match t with
          | Ty.char => Option.some (push m "`string`")
          | t =>
            match print_ty iface fuel t false (push m "list<") with
            | Option.none => Option.none
            | Option.some m => Option.some (push m ">")
        | TypeDefKind.record r =>
          match r.fields.foldlM
              (fun (acc : Markdown × Bool) f =>
                (print_ty iface fuel f.ty false
                    (push (push (if acc.2 then acc.1 else push acc.1 ", ") f.name) ": ")).map
                  (fun m2 => (m2, false)))
              (push m "record<", true) with
          | Option.none => Option.none
          | Option.some acc => Option.some (push acc.1 ">")
        | TypeDefKind.flags fl =>
          Option.some (push ((fl.flags.foldl
            (fun (acc : Markdown × Bool) f =>
              (push (if acc.2 then acc.1 else push acc.1 ", ") f.name, false))
            (push m "flags<", true)).1) ">")
        | TypeDefKind.enum e =>
          Option.some (push ((e.cases.foldl
            (fun (acc : Markdown × Bool) f =>
              (push (if acc.2 then acc.1 else push acc.1 ", ") f.name, false))
            (push m "enum<", true)).1) ">")
        | TypeDefKind.union u =>
          match u.cases.foldlM
              (fun (acc : Markdown × Bool) c =>
                (print_ty iface fuel c.ty false
                    (if acc.2 then acc.1 else push acc.1 ", ")).map (fun m2 => (m2, false)))
              (push m "union<", true) with
          | Option.none => Option.none
          | Option.some acc => Option.some (push acc.1 ">")
        | TypeDefKind.future t =>
          match print_ty iface fuel t false (push m "future<") with
          | Option.none => Option.none
          | Option.some m => Option.some (push m ">")
        | TypeDefKind.stream s =>
          match print_ty iface fuel s.element false (push m "stream<") with
          | Option.none => Option.none
          | Option.some m =>
            match print_ty iface fuel s.end_ false (push m ", ") with
            | Option.none => Option.none
            | Option.some m => Option.some (push m ">")

/-! ## Section renderers

One per `TypeDefKind`, as in `main.rs`; each emits the header, the one-word
kind label, the documentation/size/alignment block, and the body. The ones
that call `print_ty` are `Option`-valued. -/

/-- `Markdown::type_record`. Note that the embedded anchor tag of each
field entry uses `href="{r}.{f}"` — without a leading `#` — exactly as the
source does, while the markdown link beside it uses `#{r}.{f}`. -/
def type_record (iface : Interface) (sa : SizeAlign) (fuel : Nat) (id : Nat) (name : String)
    (r : Record) (d : Docs) (m : Markdown) : Option Markdown :=
  let m := print_type_header m name
  let m := push m "record\n\n"
  let m := print_type_info sa m id d
  let m := push m "\n### Record Fields\n\n"
  r.fields.foldlM (fun m field =>
    let m := push m ("- <a href=\"" ++ toSnakeCase name ++ "." ++ toSnakeCase field.name
      ++ "\" name=\"" ++ toSnakeCase name ++ "." ++ toSnakeCase field.name
      ++ "\"></a> [`" ++ field.name ++ "`](#" ++ toSnakeCase name ++ "."
      ++ toSnakeCase field.name ++ "): ")
    let m := insertHref m (name ++ "::" ++ field.name)
      ("#" ++ toSnakeCase name ++ "." ++ toSnakeCase field.name)
    match print_ty iface fuel field.ty false m with
    | Option.none => Option.none
    | Option.some m =>
      let m := push m "\n\n"
      let m := docs m field.docs
      Option.some (push m "\n")) m

/-- `Markdown::type_tuple`. -/
def type_tuple (iface : Interface) (sa : SizeAlign) (fuel : Nat) (id : Nat) (name : String)
    (t : Tuple) (d : Docs) (m : Markdown) : Option Markdown :=
  let m := print_type_header m name
  let m := push m "tuple\n\n"
  let m := print_type_info sa m id d
  let m := push m "\n### Tuple Types\n\n"
  t.types.foldlM (fun m field =>
    let m := push m "- "
    match print_ty iface fuel field false m with
    | Option.none => Option.none
    | Option.some m => Option.some (push m "\n")) m

/-- `Markdown::type_flags`: per-flag entries with declaration-order bit
indices; calls no `print_ty`, hence pure. The field anchors also lack the
`#` in `href`, as in the source. -/
def type_flags (sa : SizeAlign) (id : Nat) (name : String) (fl : Flags) (d : Docs)
    (m : Markdown) : Markdown :=
  let m := print_type_header m name
  let m := push m "flags\n\n"
  let m := print_type_info sa m id d
  let m := push m "\n### Flags Fields\n\n"
  (fl.flags.enum).foldl (fun m p =>
    let m := push m ("- <a href=\"" ++ toSnakeCase name ++ "." ++ toSnakeCase p.2.name
      ++ "\" name=\"" ++ toSnakeCase name ++ "." ++ toSnakeCase p.2.name
      ++ "\"></a> [`" ++ p.2.name ++ "`](#" ++ toSnakeCase name ++ "."
      ++ toSnakeCase p.2.name ++ ")")
    let m := insertHref m (name ++ "::" ++ p.2.name)
      ("#" ++ toSnakeCase name ++ "." ++ toSnakeCase p.2.name)
    let m := push m "\n\n"
    let m := docs m p.2.docs
    let m := push m ("Bit: " ++ toString p.1 ++ "\n")
    push m "\n") m

/-- `Markdown::type_variant`. -/
def type_variant (iface : Interface) (sa : SizeAlign) (fuel : Nat) (id : Nat) (name : String)
    (v : Variant) (d : Docs) (m : Markdown) : Option Markdown :=
  let m := print_type_header m name
  let m := push m "variant\n\n"
  let m := print_type_info sa m id d
  let m := push m "\n### Variant Cases\n\n"
  v.cases.foldlM (fun m case =>
    let m := push m ("- <a href=\"" ++ toSnakeCase name ++ "." ++ toSnakeCase case.name
      ++ "\" name=\"" ++ toSnakeCase name ++ "." ++ toSnakeCase case.name
      ++ "\"></a> [`" ++ case.name ++ "`](#" ++ toSnakeCase name ++ "."
      ++ toSnakeCase case.name ++ ")")
    let m := insertHref m (name ++ "::" ++ case.name)
      ("#" ++ toSnakeCase name ++ "." ++ toSnakeCase case.name)
    let m := push m ": "
    match print_ty iface fuel case.ty false m with
    | Option.none => Option.none
    | Option.some m =>
      let m := push m "\n\n"
      let m := docs m case.docs
      Option.some (push m "\n")) m

/-- `Markdown::type_enum`: pure (no `print_ty`). -/
def type_enum (sa : SizeAlign) (id : Nat) (name : String) (e : Enum) (d : Docs)
    (m : Markdown) : Markdown :=
  let m := print_type_header m name
  let m := push m "enum\n\n"
  let m := print_type_info sa m id d
  let m := push m "\n### Enum Cases\n\n"
  e.cases.foldl (fun m case =>
    let m := push m ("- <a href=\"" ++ toSnakeCase name ++ "." ++ toSnakeCase case.name
      ++ "\" name=\"" ++ toSnakeCase name ++ "." ++ toSnakeCase case.name
      ++ "\"></a> [`" ++ case.name ++ "`](#" ++ toSnakeCase name ++ "."
      ++ toSnakeCase case.name ++ ")")
    let m := insertHref m (name ++ "::" ++ case.name)
      ("#" ++ toSnakeCase name ++ "." ++ toSnakeCase case.name)
    let m := push m "\n\n"
    let m := docs m case.docs
    push m "\n") m

/-- `Markdown::type_union`: body entries carry no anchor and no registry
insertion, only the printed payload type and the case documentation. -/
def type_union (iface : Interface) (sa : SizeAlign) (fuel : Nat) (id : Nat) (name : String)
    (u : Union) (d : Docs) (m : Markdown) : Option Markdown :=
  let m := print_type_header m name
  let m := push m "union\n\n"
  let m := print_type_info sa m id d
  let m := push m "\n### Union Cases\n\n"
  u.cases.foldlM (fun m case =>
    let m := push m "- "
    match print_ty iface fuel case.ty false m with
    | Option.none => Option.none
    | Option.some m =>
      let m := push m "\n\n"
      let m := docs m case.docs
      Option.some (push m "\n")) m

/-- `Markdown::type_option`. -/
def type_option (iface : Interface) (sa : SizeAlign) (fuel : Nat) (id : Nat) (name : String)
    (t : Ty) (d : Docs) (m : Markdown) : Option Markdown :=
  let m := print_type_header m name
  let m := push m "option\n\n"
  let m := print_type_info sa m id d
  let m := push m "\n### Option\n\n"
  let m := push m "- "
  match print_ty iface fuel t false m with
  | Option.none => Option.none
  | Option.some m => Option.some (push m "\n\n")

/-- `Markdown::type_expected`. -/
def type_expected (iface : Interface) (sa : SizeAlign) (fuel : Nat) (id : Nat) (name : String)
    (e : Expected) (d : Docs) (m : Markdown) : Option Markdown :=
  let m := print_type_header m name
  let m := push m "expected\n\n"
  let m := print_type_info sa m id d
  let m := push m "\n### Expected\n\n"
  let m := push m "- ok: "
  match print_ty iface fuel e.ok false m with
  | Option.none => Option.none
  | Option.some m =>
    let m := push m "\n"
    let m := push m "- err: "
    match print_ty iface fuel e.err false m with
    | Option.none => Option.none
    | Option.some m => Option.some (push m "\n\n")

/-- `Markdown::type_future`. -/
def type_future (iface : Interface) (sa : SizeAlign) (fuel : Nat) (id : Nat) (name : String)
    (t : Ty) (d : Docs) (m : Markdown) : Option Markdown :=
  let m := print_type_header m name
  let m := push m "future\n\n"
  let m := print_type_info sa m id d
  let m := push m "\n### Future\n\n"
  let m := push m "- "
  match print_ty iface fuel t false m with
  | Option.none => Option.none
  | Option.some m => Option.some (push m "\n\n")

/-- `Markdown::type_stream`. -/
def type_stream (iface : Interface) (sa : SizeAlign) (fuel : Nat) (id : Nat) (name : String)
    (s : Stream) (d : Docs) (m : Markdown) : Option Markdown :=
  let m := print_type_header m name
  let m := push m "stream\n\n"
  let m := print_type_info sa m id d
  let m := push m "\n### Stream\n\n"
  let m := push m "- ok: "
  match print_ty iface fuel s.element false m with
  | Option.none => Option.none
  | Option.some m =>
    let m := push m "\n"
    let m := push m "- err: "
    match print_ty iface fuel s.end_ false m with
    | Option.none => Option.none
    | Option.some m => Option.some (push m "\n\n")

/-- `Markdown::type_alias`: header, the aliased type expanded inline
(`skip_name = true`), then the documentation/size block. -/
def type_alias (iface : Interface) (sa : SizeAlign) (fuel : Nat) (id : Nat) (name : String)
    (ty : Ty) (d : Docs) (m : Markdown) : Option Markdown :=
  let m := print_type_header m name
  match print_ty iface fuel ty true m with
  | Option.none => Option.none
  | Option.some m =>
    let m := push m "\n\n"
    let m := print_type_info sa m id d
    Option.some (push m "\n")

/-! ## Document assembler -/

/-- The named-type dispatch of `Markdown::process`: unnamed types are
skipped; a named `List(_)` goes through `type_alias` on `Type::Id(id)`. -/
def renderType (iface : Interface) (sa : SizeAlign) (fuel : Nat) (p : Nat × TypeDef)
    (m : Markdown) : Option Markdown :=
  match p.2.name with
  | Option.none => Option.some m
  | Option.some name =>
    match p.2.kind with
    | TypeDefKind.record r => type_record iface sa fuel p.1 name r p.2.docs m
    | TypeDefKind.tuple t => type_tuple iface sa fuel p.1 name t p.2.docs m
    | TypeDefKind.flags fl => Option.some (type_flags sa p.1 name fl p.2.docs m)
    | TypeDefKind.variant v => type_variant iface sa fuel p.1 name v p.2.docs m
    | TypeDefKind.type t => type_alias iface sa fuel p.1 name t p.2.docs m
    | TypeDefKind.list _ => type_alias iface sa fuel p.1 name (Ty.id p.1) p.2.docs m
    | TypeDefKind.enum e => Option.some (type_enum sa p.1 name e p.2.docs m)
    | TypeDefKind.option t => type_option iface sa fuel p.1 name t p.2.docs m
    | TypeDefKind.expected e => type_expected iface sa fuel p.1 name e p.2.docs m
    | TypeDefKind.union u => type_union iface sa fuel p.1 name u p.2.docs m
    | TypeDefKind.future t => type_future iface sa fuel p.1 name t p.2.docs m
    | TypeDefKind.stream s => type_stream iface sa fuel p.1 name s p.2.docs m

/-- The opening of one iteration of the function loop of
`Markdown::process`: the `# Functions` banner on the first function, the
counter bump, a horizontal rule, the self-anchored header (registered in
`hrefs`), and the function's documentation. -/
def funcHeaderState (f : Func) (m : Markdown) : Markdown :=
  let m := if m.funcs = 0 then pushB m "# Functions\n\n" else m
  let m := { m with funcs := m.funcs + 1 }
  let m := push m "----\n\n"
  let m := push m ("#### <a href=\"#" ++ toSnakeCase f.name ++ "\" name=\""
    ++ toSnakeCase f.name ++ "\"></a> `")
  let m := insertHref m f.name ("#" ++ toSnakeCase f.name)
  let m := push m f.name
  let m := push m "` "
  let m := push m "\n\n"
  docs m f.docs

/-- The `if func.params.len() > 0` block of the function loop: a `Params`
subsection with one anchored entry per parameter, emitted only when the
parameter list is non-empty. -/
def funcParamsState (iface : Interface) (fuel : Nat) (f : Func) (m : Markdown) :
    Option Markdown :=
  if f.params.length > 0 then
    f.params.foldlM (fun m p =>
      let m := push m ("- <a href=\"#" ++ toSnakeCase f.name ++ "." ++ toSnakeCase p.1
        ++ "\" name=\"" ++ toSnakeCase f.name ++ "." ++ toSnakeCase p.1
        ++ "\"></a> `" ++ p.1 ++ "`: ")
      match print_ty iface fuel p.2 false m with
      | Option.none => Option.none
      | Option.some m => Option.some (push m "\n")) (push m "##### Params\n\n")
  else Option.some m

/-- One iteration of the function loop of `Markdown::process`: banner,
rule, self-anchored header (registered in `hrefs`), docs, the conditional
`Params` subsection, then the `Result` subsection with its single entry. -/
def funcStep (iface : Interface) (fuel : Nat) (f : Func) (m : Markdown) : Option Markdown :=
  match funcParamsState iface fuel f (funcHeaderState f m) with
  | Option.none => Option.none
  | Option.some m =>
    let m := push m "##### Result\n\n"
    let m := push m "- "
    match print_ty iface fuel f.result false m with
    | Option.none => Option.none
    | Option.some m => Option.some (push (push m "\n") "\n")

/-- `Markdown::process`: all types in declaration order, then all
functions. The `self.sizes.fill(iface)` call is modelled by the `sa`
parameter (the filled oracle). -/
def process (iface : Interface) (sa : SizeAlign) (fuel : Nat) (m : Markdown) : Option Markdown :=
  match (iface.types.enum).foldlM (fun m p => renderType iface sa fuel p m) m with
  | Option.none => Option.none
  | Option.some m => iface.functions.foldlM (fun m f => funcStep iface fuel f m) m

/-- One render pass as `render_file` performs it: a freshly constructed
`Markdown` state fed to `process`. -/
def render (iface : Interface) (sa : SizeAlign) (fuel : Nat) : Option Markdown :=
  process iface sa fuel initMarkdown

/-! ## Emission algebra

Every renderer operation only ever appends to the output trace and to the
registry and (apart from the two banner sites and the two counters) reads
nothing from the state. `appOuts` is the append action on the trace, and
`SrcOnly f` says that `f` is a pure trace-append: its effect on any state
is the effect it has on the fresh state, appended. -/

/-- Append a batch of pushes to the output trace. -/
def appOuts (m : Markdown) (os : List (Bool × String)) : Markdown :=
  { m with outs := m.outs ++ os }

/-- A trace fragment containing no banner push. -/
def Clean (os : List (Bool × String)) : Prop := ∀ p ∈ os, p.1 = false

/-- Concatenated text of a trace fragment. -/
def outsStr (os : List (Bool × String)) : String := String.join (os.map Prod.snd)

@[simp] theorem appOuts_outs (m : Markdown) (os) : (appOuts m os).outs = m.outs ++ os := rfl

@[simp] theorem appOuts_hrefs (m : Markdown) (os) : (appOuts m os).hrefs = m.hrefs := rfl

@[simp] theorem appOuts_funcs (m : Markdown) (os) : (appOuts m os).funcs = m.funcs := rfl

@[simp] theorem appOuts_types (m : Markdown) (os) : (appOuts m os).types = m.types := rfl

@[simp] theorem appOuts_nil (m : Markdown) : appOuts m [] = m := by
  simp [appOuts]

@[simp] theorem appOuts_appOuts (m : Markdown) (a b) :
    appOuts (appOuts m a) b = appOuts m (a ++ b) := by
  simp [appOuts]

@[simp] theorem push_eq (m : Markdown) (s) : push m s = appOuts m [(false, s)] := rfl

@[simp] theorem pushB_eq (m : Markdown) (s) : pushB m s = appOuts m [(true, s)] := rfl

@[simp] theorem insertHref_hrefs (m : Markdown) (k v) :
    (insertHref m k v).hrefs = m.hrefs ++ [(k, v)] := rfl

@[simp] theorem insertHref_outs (m : Markdown) (k v) : (insertHref m k v).outs = m.outs := rfl

@[simp] theorem insertHref_funcs (m : Markdown) (k v) : (insertHref m k v).funcs = m.funcs := rfl

@[simp] theorem insertHref_types (m : Markdown) (k v) : (insertHref m k v).types = m.types := rfl

theorem insertHref_appOuts (m : Markdown) (os k v) :
    insertHref (appOuts m os) k v = appOuts (insertHref m k v) os := rfl

@[simp] theorem initMarkdown_outs : initMarkdown.outs = [] := rfl

@[simp] theorem initMarkdown_hrefs : initMarkdown.hrefs = [] := rfl

@[simp] theorem initMarkdown_funcs : initMarkdown.funcs = 0 := rfl

@[simp] theorem initMarkdown_types : initMarkdown.types = 0 := rfl

theorem clean_append {a b} (ha : Clean a) (hb : Clean b) : Clean (a ++ b) := by
  intro p hp
  rcases List.mem_append.mp hp with h | h
  · exact ha p h
  · exact hb p h

theorem clean_single (s : String) : Clean [(false, s)] := by
  intro p hp
  simp at hp
  simp [hp]

theorem clean_nil : Clean [] := by
  intro p hp
  simp at hp

@[simp] theorem clean_append_iff (a b : List (Bool × String)) :
    Clean (a ++ b) ↔ Clean a ∧ Clean b := by
  constructor
  · intro h
    exact ⟨fun p hp => h p (List.mem_append.mpr (Or.inl hp)),
      fun p hp => h p (List.mem_append.mpr (Or.inr hp))⟩
  · intro ⟨ha, hb⟩
    exact clean_append ha hb

@[simp] theorem clean_cons_iff (p : Bool × String) (os : List (Bool × String)) :
    Clean (p :: os) ↔ p.1 = false ∧ Clean os := by
  constructor
  · intro h
    exact ⟨h p (List.mem_cons_self p os), fun q hq => h q (List.mem_cons_of_mem p hq)⟩
  · intro ⟨hp, hos⟩ q hq
    rcases List.mem_cons.mp hq with h0 | h0
    · rw [h0]; exact hp
    · exact hos q h0

@[simp] theorem clean_nil_iff : Clean ([] : List (Bool × String)) ↔ True :=
  ⟨fun _ => trivial, fun _ => clean_nil⟩

/-- `f` only appends text: its result on any state is its result on the
fresh state, appended onto the state, and what it appends contains no
banner push. -/
def SrcOnly (f : Markdown → Option Markdown) : Prop :=
  (∀ m, f m = (f initMarkdown).map (fun d => appOuts m d.outs)) ∧
  (∀ d, f initMarkdown = Option.some d → Clean d.outs)

theorem srcOnly_none : SrcOnly (fun _ => Option.none) := by
  constructor
  · intro m
    rfl
  · intro d h
    cases h

/-- A pure push batch is `SrcOnly`. -/
theorem srcOnly_pushes (g : Markdown → Markdown) (os : List (Bool × String))
    (hos : Clean os) (hg : ∀ m, g m = appOuts m os) :
    SrcOnly (fun m => Option.some (g m)) := by
  constructor
  · intro m
    simp [hg]
  · intro d h
    simp [hg] at h
    subst h
    simpa using hos

theorem srcOnly_comp_push (s : String) (f) (hf : SrcOnly f) :
    SrcOnly (fun m => f (push m s)) := by
  obtain ⟨h1, h2⟩ := hf
  constructor
  · intro m
    dsimp only
    rw [h1 (push m s), h1 (push initMarkdown s)]
    cases h : f initMarkdown with
    | none => simp
    | some d => simp [List.append_assoc]
  · intro d h
    dsimp only at h
    rw [h1 (push initMarkdown s)] at h
    cases h0 : f initMarkdown with
    | none => rw [h0] at h; cases h
    | some d0 =>
      rw [h0] at h
      simp at h
      subst h
      simp only [appOuts_outs, push_eq, initMarkdown_outs, List.nil_append]
      exact clean_append (clean_single s) (h2 d0 h0)

theorem srcOnly_wrap (a b : String) (f) (hf : SrcOnly f) :
    SrcOnly (fun m => match f (push m a) with
      | Option.none => Option.none
      | Option.some m2 => Option.some (push m2 b)) := by
  obtain ⟨hc1, hc2⟩ := srcOnly_comp_push a f hf
  dsimp only at hc1 hc2
  constructor
  · intro m
    dsimp only
    rw [hc1 m]
    cases h : f (push initMarkdown a) with
    | none => simp
    | some d => simp [List.append_assoc]
  · intro d h
    dsimp only at h
    cases h0 : f (push initMarkdown a) with
    | none => rw [h0] at h; cases h
    | some d0 =>
      rw [h0] at h
      simp at h
      subst h
      simp only [push_eq, appOuts_outs]
      exact clean_append (hc2 d0 h0) (clean_single b)

theorem srcOnly_wrap2 (a s b : String) (f g) (hf : SrcOnly f) (hg : SrcOnly g) :
    SrcOnly (fun m => match f (push m a) with
      | Option.none => Option.none
      | Option.some m2 =>
        match g (push m2 s) with
        | Option.none => Option.none
        | Option.some m3 => Option.some (push m3 b)) := by
  obtain ⟨hf1, hf2⟩ := srcOnly_comp_push a f hf
  dsimp only at hf1 hf2
  obtain ⟨hg1, hg2⟩ := hg
  constructor
  · intro m
    dsimp only
    rw [hf1 m]
    cases h : f (push initMarkdown a) with
    | none => simp
    | some d =>
      simp only [Option.map_some']
      rw [hg1 (push (appOuts m d.outs) s), hg1 (push d s)]
      cases h2 : g initMarkdown with
      | none => simp
      | some e => simp [List.append_assoc]
  · intro d h
    dsimp only at h
    cases h0 : f (push initMarkdown a) with
    | none => rw [h0] at h; cases h
    | some d0 =>
      rw [h0] at h
      simp only [] at h
      rw [hg1 (push d0 s)] at h
      cases h1 : g initMarkdown with
      | none => rw [h1] at h; cases h
      | some e0 =>
        rw [h1] at h
        simp at h
        subst h
        simp only [push_eq, appOuts_outs, List.append_assoc]
        refine clean_append (hf2 d0 h0) ?_
        refine clean_append (clean_single s) ?_
        exact clean_append (hg2 e0 h1) (clean_single b)

/-- The comma-separated element loop of the `Tuple`/`Record`/`Union` arms
of `print_ty`, over an arbitrary `SrcOnly` element printer `g`, is itself a
pure trace-append (on both components of its accumulator). -/
theorem foldPair_srcOnly {α : Type} (g : α → Markdown → Option Markdown)
    (hg : ∀ x, SrcOnly (g x)) (l : List α) : ∀ b : Bool,
    (∀ m, l.foldlM (fun (acc : Markdown × Bool) x =>
        (g x (if acc.2 then acc.1 else push acc.1 ", ")).map (fun m2 => (m2, false)))
        (m, b)
      = (l.foldlM (fun (acc : Markdown × Bool) x =>
          (g x (if acc.2 then acc.1 else push acc.1 ", ")).map (fun m2 => (m2, false)))
          (initMarkdown, b)).map (fun q => (appOuts m q.1.outs, q.2)))
    ∧ (∀ q, l.foldlM (fun (acc : Markdown × Bool) x =>
        (g x (if acc.2 then acc.1 else push acc.1 ", ")).map (fun m2 => (m2, false)))
        (initMarkdown, b) = Option.some q → Clean q.1.outs) := by
  induction l with
  | nil =>
    intro b
    constructor
    · intro m
      simp [List.foldlM_nil]
    · intro q h
      simp [List.foldlM_nil] at h
      subst h
      exact clean_nil
  | cons x xs IH =>
    intro b
    obtain ⟨hx1, hx2⟩ := hg x
    have hxs := IH false
    constructor
    · intro m
      simp only [List.foldlM_cons]
      rw [hx1 (if b then m else push m ", "),
        hx1 (if b then initMarkdown else push initMarkdown ", ")]
      cases hgi : g x initMarkdown with
      | none => simp
      | some d =>
        simp only [Option.map_some', Option.bind_eq_bind, Option.some_bind]
        rw [hxs.1 (appOuts (if b then m else push m ", ") d.outs),
          hxs.1 (appOuts (if b then initMarkdown else push initMarkdown ", ") d.outs)]
        cases hr : xs.foldlM (fun (acc : Markdown × Bool) x =>
            (g x (if acc.2 then acc.1 else push acc.1 ", ")).map (fun m2 => (m2, false)))
            (initMarkdown, false) with
        | none => simp
        | some q =>
          cases b <;> simp [List.append_assoc]
    · intro q h
      simp only [List.foldlM_cons] at h
      rw [hx1 (if b then initMarkdown else push initMarkdown ", ")] at h
      cases hgi : g x initMarkdown with
      | none => rw [hgi] at h; cases h
      | some d =>
        rw [hgi] at h
        simp only [Option.map_some', Option.bind_eq_bind, Option.some_bind] at h
        rw [hxs.1 (appOuts (if b then initMarkdown else push initMarkdown ", ") d.outs)] at h
        cases hr : xs.foldlM (fun (acc : Markdown × Bool) x =>
            (g x (if acc.2 then acc.1 else push acc.1 ", ")).map (fun m2 => (m2, false)))
            (initMarkdown, false) with
        | none => rw [hr] at h; cases h
        | some q0 =>
          rw [hr] at h
          simp at h
          subst h
          simp only [appOuts_outs]
          refine clean_append ?_ (clean_append (hx2 d hgi) (hxs.2 q0 hr))
          cases b
          · simp [Clean]
          · simp [Clean]

/-- The `Tuple`/`Record`/`Union` arm shape of `print_ty` is `SrcOnly`. -/
theorem srcOnly_fold (opening closing : String) {α : Type}
    (g : α → Markdown → Option Markdown) (hg : ∀ x, SrcOnly (g x)) (l : List α) :
    SrcOnly (fun m => match l.foldlM (fun (acc : Markdown × Bool) x =>
        (g x (if acc.2 then acc.1 else push acc.1 ", ")).map (fun m2 => (m2, false)))
        (push m opening, true) with
      | Option.none => Option.none
      | Option.some acc => Option.some (push acc.1 closing)) := by
  have H := foldPair_srcOnly g hg l true
  constructor
  · intro m
    dsimp only
    rw [H.1 (push m opening), H.1 (push initMarkdown opening)]
    cases h : l.foldlM (fun (acc : Markdown × Bool) x =>
        (g x (if acc.2 then acc.1 else push acc.1 ", ")).map (fun m2 => (m2, false)))
        (initMarkdown, true) with
    | none => simp
    | some q => simp [List.append_assoc]
  · intro d h
    dsimp only at h
    rw [H.1 (push initMarkdown opening)] at h
    cases h0 : l.foldlM (fun (acc : Markdown × Bool) x =>
        (g x (if acc.2 then acc.1 else push acc.1 ", ")).map (fun m2 => (m2, false)))
        (initMarkdown, true) with
    | none => rw [h0] at h; cases h
    | some q =>
      rw [h0] at h
      simp at h
      subst h
      simp only [push_eq, appOuts_outs, appOuts_appOuts, initMarkdown_outs, List.nil_append,
        List.append_assoc]
      refine clean_append (clean_single opening) ?_
      exact clean_append (H.2 q h0) (clean_single closing)

/-- The pure name loop of the `Flags`/`Enum` arms of `print_ty` is a pure
trace-append. -/
theorem foldPure_srcOnly {α : Type} (nameOf : α → String) (l : List α) : ∀ (b : Bool) (m : Markdown),
    (l.foldl (fun (acc : Markdown × Bool) x =>
        (push (if acc.2 then acc.1 else push acc.1 ", ") (nameOf x), false)) (m, b)).1
      = appOuts m ((l.foldl (fun (acc : Markdown × Bool) x =>
          (push (if acc.2 then acc.1 else push acc.1 ", ") (nameOf x), false))
          (initMarkdown, b)).1).outs
    ∧ (l.foldl (fun (acc : Markdown × Bool) x =>
        (push (if acc.2 then acc.1 else push acc.1 ", ") (nameOf x), false)) (m, b)).2
      = (l.foldl (fun (acc : Markdown × Bool) x =>
          (push (if acc.2 then acc.1 else push acc.1 ", ") (nameOf x), false))
          (initMarkdown, b)).2
    ∧ Clean ((l.foldl (fun (acc : Markdown × Bool) x =>
        (push (if acc.2 then acc.1 else push acc.1 ", ") (nameOf x), false))
        (initMarkdown, b)).1).outs := by
  induction l with
  | nil =>
    intro b m
    refine ⟨by simp, rfl, clean_nil⟩
  | cons x xs IH =>
    intro b m
    simp only [List.foldl_cons]
    have step : ∀ m' : Markdown,
        push (if b then m' else push m' ", ") (nameOf x)
          = appOuts m' ((if b then ([] : List (Bool × String)) else [(false, ", ")])
              ++ [(false, nameOf x)]) := by
      intro m'
      cases b <;> simp
    rw [step m, step initMarkdown]
    obtain ⟨ih1, ih2, ih3⟩ := IH false (appOuts m ((if b then ([] : List (Bool × String))
      else [(false, ", ")]) ++ [(false, nameOf x)]))
    refine ⟨?_, ?_, ?_⟩
    · rw [ih1]
      have := (IH false (appOuts initMarkdown ((if b then ([] : List (Bool × String))
        else [(false, ", ")]) ++ [(false, nameOf x)]))).1
      rw [this]
      simp [List.append_assoc]
    · rw [ih2]
      exact ((IH false (appOuts initMarkdown ((if b then ([] : List (Bool × String))
        else [(false, ", ")]) ++ [(false, nameOf x)]))).2.1).symm ▸ rfl
    · have h1 := (IH false (appOuts initMarkdown ((if b then ([] : List (Bool × String))
        else [(false, ", ")]) ++ [(false, nameOf x)]))).1
      rw [h1]
      simp only [appOuts_outs, appOuts_appOuts, initMarkdown_outs, List.nil_append]
      refine clean_append (clean_append ?_ (clean_single (nameOf x))) ?_
      · cases b
        · simp [Clean]
        · simp [Clean]
      · exact (IH false initMarkdown).2.2

theorem clean_cons (s : String) {os} (h : Clean os) : Clean ((false, s) :: os) := by
  intro p hp
  rcases List.mem_cons.mp hp with h0 | h0
  · simp [h0]
  · exact h p h0

theorem srcOnly_single_push (s : String) : SrcOnly (fun m => Option.some (push m s)) :=
  srcOnly_pushes _ [(false, s)] (clean_single s) (fun _ => by simp)

/-- The `Flags`/`Enum` arm shape of `print_ty` is `SrcOnly`. -/
theorem srcOnly_pure_fold (opening closing : String) {α : Type} (nameOf : α → String)
    (l : List α) :
    SrcOnly (fun m => Option.some (push ((l.foldl (fun (acc : Markdown × Bool) x =>
      (push (if acc.2 then acc.1 else push acc.1 ", ") (nameOf x), false))
      (push m opening, true)).1) closing)) := by
  refine srcOnly_pushes _ ([(false, opening)]
    ++ ((l.foldl (fun (acc : Markdown × Bool) x =>
        (push (if acc.2 then acc.1 else push acc.1 ", ") (nameOf x), false))
        (initMarkdown, true)).1).outs ++ [(false, closing)]) ?_ ?_
  · refine clean_append (clean_append (clean_single opening) ?_) (clean_single closing)
    exact (foldPure_srcOnly nameOf l true initMarkdown).2.2
  · intro m
    have h := (foldPure_srcOnly nameOf l true (push m opening)).1
    rw [h]
    simp [List.append_assoc]

/-- Unfolding of the `Type::Id` arm of `print_ty` when the name link is not
taken (suppression requested, or the `TypeDef` is anonymous): the printer
dispatches on the shape kind. -/
theorem print_ty_id_eq (iface : Interface) (fuel : Nat) (tid : Nat) (skip : Bool)
    (td : TypeDef) (hty : iface.types.get? tid = Option.some td)
    (hfall : skip = true ∨ td.name = Option.none) :
    print_ty iface (fuel + 1) (Ty.id tid) skip = fun m =>
      match td.kind with
      | TypeDefKind.type t => print_ty iface fuel t false m
      | TypeDefKind.tuple t =>
        match t.types.foldlM
            (fun (acc : Markdown × Bool) f =>
              (print_ty iface fuel f false
                  (if acc.2 then acc.1 else push acc.1 ", ")).map (fun m2 => (m2, false)))
            (push m "(", true) with
        | Option.none => Option.none
        | Option.some acc => Option.some (push acc.1 ")")
      | TypeDefKind.option t =>
        match print_ty iface fuel t false (push m "option<") with
        | Option.none => Option.none
        | Option.some m => Option.some (push m ">")
      | TypeDefKind.expected e =>
        match print_ty iface fuel e.ok false (push m "expected<") with
        | Option.none => Option.none
        | Option.some m =>
          match print_ty iface fuel e.err false (push m ", ") with
          | Option.none => Option.none
          | Option.some m => Option.some (push m ">")
      | TypeDefKind.variant _ => Option.none
      | TypeDefKind.list t =>
        match t with
        | Ty.char => Option.some (push m "`string`")
        | t =>
          match print_ty iface fuel t false (push m "list<") with
          | Option.none => Option.none
          | Option.some m => Option.some (push m ">")
      | TypeDefKind.record r =>
        match r.fields.foldlM
            (fun (acc : Markdown × Bool) f =>
              (print_ty iface fuel f.ty false
                  (push (push (if acc.2 then acc.1 else push acc.1 ", ") f.name) ": ")).map
                (fun m2 => (m2, false)))
            (push m "record<", true) with
        | Option.none => Option.none
        | Option.some acc => Option.some (push acc.1 ">")
      | TypeDefKind.flags fl =>
        Option.some (push ((fl.flags.foldl
          (fun (acc : Markdown × Bool) f =>
            (push (if acc.2 then acc.1 else push acc.1 ", ") f.name, false))
          (push m "flags<", true)).1) ">")
      | TypeDefKind.enum e =>
        Option.some (push ((e.cases.foldl
          (fun (acc : Markdown × Bool) f =>
            (push (if acc.2 then acc.1 else push acc.1 ", ") f.name, false))
          (push m "enum<", true)).1) ">")
      | TypeDefKind.union u =>
        match u.cases.foldlM
            (fun (acc : Markdown × Bool) c =>
              (print_ty iface fuel c.ty false
                  (if acc.2 then acc.1 else push acc.1 ", ")).map (fun m2 => (m2, false)))
            (push m "union<", true) with
        | Option.none => Option.none
        | Option.some acc => Option.some (push acc.1 ">")
      | TypeDefKind.future t =>
        match print_ty iface fuel t false (push m "future<") with
        | Option.none => Option.none
        | Option.some m => Option.some (push m ">")
      | TypeDefKind.stream s =>
        match print_ty iface fuel s.element false (push m "stream<") with
        | Option.none => Option.none
        | Option.some m =>
          match print_ty iface fuel s.end_ false (push m ", ") with
          | Option.none => Option.none
          | Option.some m => Option.some (push m ">") := by
  funext m
  rcases hfall with h | h
  · subst h
    simp only [print_ty, hty]
  · cases skip
    · simp only [print_ty, hty, h]
    · simp only [print_ty, hty, h]

/-- Unfolding of the `Type::Id` arm of `print_ty` when the resolved type is
named and name links are not suppressed: a markdown link whose target is
derived from the name alone. -/
theorem print_ty_id_link (iface : Interface) (fuel : Nat) (tid : Nat)
    (td : TypeDef) (name : String) (hty : iface.types.get? tid = Option.some td)
    (hname : td.name = Option.some name) (m : Markdown) :
    print_ty iface (fuel + 1) (Ty.id tid) false m
      = Option.some (push m ("[`" ++ name ++ "`](" ++ ("#" ++ toSnakeCase name) ++ ")")) := by
  have e : "[`" ++ name ++ "`](" ++ ("#" ++ toSnakeCase name) ++ ")"
      = "[`" ++ name ++ "`](#" ++ toSnakeCase name ++ ")" := by
    simp only [String.append_assoc]
    congr 2
  rw [e]
  simp only [print_ty, hty, hname]

/-- `print_ty` is a pure trace-append: on any state it appends exactly what
it emits on the fresh state (in particular it never touches `hrefs` or the
banner counters), and what it emits contains no banner push. -/
theorem print_ty_srcOnly (iface : Interface) : ∀ (fuel : Nat) (ty : Ty) (skip : Bool),
    SrcOnly (print_ty iface fuel ty skip) := by
  intro fuel
  induction fuel with
  | zero =>
    intro ty skip
    exact srcOnly_none
  | succ fuel IH =>
    intro ty skip
    cases ty with
    | unit => exact srcOnly_single_push _
    | bool => exact srcOnly_single_push _
    | u8 => exact srcOnly_single_push _
    | s8 => exact srcOnly_single_push _
    | u16 => exact srcOnly_single_push _
    | s16 => exact srcOnly_single_push _
    | u32 => exact srcOnly_single_push _
    | s32 => exact srcOnly_single_push _
    | u64 => exact srcOnly_single_push _
    | s64 => exact srcOnly_single_push _
    | float32 => exact srcOnly_single_push _
    | float64 => exact srcOnly_single_push _
    | char => exact srcOnly_single_push _
    | string => exact srcOnly_single_push _
    | handle rid =>
      cases hres : iface.resources.get? rid with
      | none =>
        have e : print_ty iface (fuel + 1) (Ty.handle rid) skip = fun _ => Option.none := by
          funext m
          simp only [print_ty, hres]
        rw [e]
        exact srcOnly_none
      | some r =>
        have e : print_ty iface (fuel + 1) (Ty.handle rid) skip
            = fun m => Option.some (push (push (push m "handle<") r.name) ">") := by
          funext m
          simp only [print_ty, hres]
        rw [e]
        exact srcOnly_pushes _ [(false, "handle<"), (false, r.name), (false, ">")]
          (clean_cons _ (clean_cons _ (clean_single _))) (fun m => by simp)
    | id tid =>
      cases hty : iface.types.get? tid with
      | none =>
        have e : print_ty iface (fuel + 1) (Ty.id tid) skip = fun _ => Option.none := by
          funext m
          simp only [print_ty, hty]
        rw [e]
        exact srcOnly_none
      | some td =>
        have kindCase : (skip = true ∨ td.name = Option.none) →
            SrcOnly (print_ty iface (fuel + 1) (Ty.id tid) skip) := by
          intro hfall
          rw [print_ty_id_eq iface fuel tid skip td hty hfall]
          cases hk : td.kind with
          | type t => exact IH t false
          | tuple t =>
            exact srcOnly_fold "(" ")" (fun f => print_ty iface fuel f false)
              (fun f => IH f false) t.types
          | option t => exact srcOnly_wrap "option<" ">" _ (IH t false)
          | expected e =>
            exact srcOnly_wrap2 "expected<" ", " ">" _ _ (IH e.ok false) (IH e.err false)
          | variant v => exact srcOnly_none
          | list t =>
            cases t
            case char => exact srcOnly_single_push _
            all_goals exact srcOnly_wrap "list<" ">" _ (IH _ false)
          | record r =>
            exact srcOnly_fold "record<" ">"
              (fun f m => print_ty iface fuel f.ty false (push (push m f.name) ": "))
              (fun f => srcOnly_comp_push f.name _ (srcOnly_comp_push ": " _ (IH f.ty false)))
              r.fields
          | flags fl => exact srcOnly_pure_fold "flags<" ">" (fun f => f.name) fl.flags
          | enum e => exact srcOnly_pure_fold "enum<" ">" (fun f => f.name) e.cases
          | union u =>
            exact srcOnly_fold "union<" ">" (fun c => print_ty iface fuel c.ty false)
              (fun c => IH c.ty false) u.cases
          | future t => exact srcOnly_wrap "future<" ">" _ (IH t false)
          | stream s =>
            exact srcOnly_wrap2 "stream<" ", " ">" _ _ (IH s.element false) (IH s.end_ false)
        cases hname : td.name with
        | none => exact kindCase (Or.inr hname)
        | some name =>
          cases skip with
          | true => exact kindCase (Or.inl rfl)
          | false =>
            have e : print_ty iface (fuel + 1) (Ty.id tid) false
                = fun m => Option.some (push m ("[`" ++ name ++ "`](#" ++ toSnakeCase name
                  ++ ")")) := by
              funext m
              simp only [print_ty, hty, hname]
            rw [e]
            exact srcOnly_single_push _

/-- Factorization corollary of `print_ty_srcOnly`. -/
theorem print_ty_factor (iface : Interface) (fuel : Nat) (ty : Ty) (skip : Bool) (m : Markdown) :
    print_ty iface fuel ty skip m
      = (print_ty iface fuel ty skip initMarkdown).map (fun d => appOuts m d.outs) :=
  (print_ty_srcOnly iface fuel ty skip).1 m

/-- What `print_ty` emits on the fresh state contains no banner push. -/
theorem print_ty_clean (iface : Interface) (fuel : Nat) (ty : Ty) (skip : Bool) (d : Markdown)
    (h : print_ty iface fuel ty skip initMarkdown = Option.some d) : Clean d.outs :=
  (print_ty_srcOnly iface fuel ty skip).2 d h

/-! ## Equations for the pure renderer operations -/

/-- The documentation block `docs` emits on the fresh state. -/
def docsOuts (d : Docs) : List (Bool × String) := (docs initMarkdown d).outs

/-- The documentation text as rendered. -/
def docsSrc (d : Docs) : String := (docs initMarkdown d).src

theorem docs_foldl (l : List String) : ∀ m : Markdown,
    l.foldl (fun m line => push (push (push m "  ") line.trim) "\n") m
      = appOuts m ((l.foldl (fun m line => push (push (push m "  ") line.trim) "\n")
          initMarkdown).outs)
    ∧ Clean ((l.foldl (fun m line => push (push (push m "  ") line.trim) "\n")
        initMarkdown).outs) := by
  induction l with
  | nil =>
    intro m
    exact ⟨by simp, clean_nil⟩
  | cons x xs IH =>
    intro m
    simp only [List.foldl_cons]
    have hstep : ∀ m' : Markdown, push (push (push m' "  ") x.trim) "\n"
        = appOuts m' [(false, "  "), (false, x.trim), (false, "\n")] := by
      intro m'
      simp
    rw [hstep m, hstep initMarkdown]
    obtain ⟨ih1, _⟩ := IH (appOuts m [(false, "  "), (false, x.trim), (false, "\n")])
    obtain ⟨ih1i, _⟩ := IH (appOuts initMarkdown [(false, "  "), (false, x.trim), (false, "\n")])
    constructor
    · rw [ih1, ih1i]
      simp [List.append_assoc]
    · rw [ih1i]
      simp only [appOuts_outs, appOuts_appOuts, initMarkdown_outs, List.nil_append]
      refine clean_append (clean_cons _ (clean_cons _ (clean_single _))) ?_
      exact (IH initMarkdown).2

theorem docs_eq (m : Markdown) (d : Docs) : docs m d = appOuts m (docsOuts d) := by
  cases d with
  | mk contents =>
    cases contents with
    | none => simp [docs, docsOuts]
    | some s =>
      simp only [docs, docsOuts]
      exact ((docs_foldl (rustLines s)) m).1

theorem docs_clean (d : Docs) : Clean (docsOuts d) := by
  cases d with
  | mk contents =>
    cases contents with
    | none => exact clean_nil
    | some s =>
      simp only [docsOuts, docs]
      exact ((docs_foldl (rustLines s)) initMarkdown).2

/-- The anchor string registered and linked for a name. -/
def anchorOf (name : String) : String := "#" ++ toSnakeCase name

/-- The level-2 header line for a named type. -/
def headerStr (name : String) : String :=
  "## <a href=\"#" ++ toSnakeCase name ++ "\" name=\"" ++ toSnakeCase name
    ++ "\"></a> `" ++ name ++ "`: "

/-- The header line for a function. -/
def funcHdrStr (name : String) : String :=
  "#### <a href=\"#" ++ toSnakeCase name ++ "\" name=\"" ++ toSnakeCase name ++ "\"></a> `"

theorem print_type_header_eq (m : Markdown) (name : String) :
    print_type_header m name
      = { m with
          outs := m.outs ++ (if m.types = 0 then [(true, "# Types\n\n")] else [])
            ++ [(false, headerStr name)],
          hrefs := m.hrefs ++ [(name, anchorOf name)],
          types := m.types + 1 } := by
  by_cases h : m.types = 0 <;>
    simp [print_type_header, h, headerStr, anchorOf, insertHref, push, pushB, appOuts]

/-- What `print_type_info` emits. -/
def infoOuts (sa : SizeAlign) (id : Nat) (d : Docs) : List (Bool × String) :=
  docsOuts d ++ [(false, "\n"),
    (false, "Size: " ++ toString (sa.size (Ty.id id)) ++ ", "),
    (false, "Alignment: " ++ toString (sa.align (Ty.id id)) ++ "\n")]

theorem print_type_info_eq (sa : SizeAlign) (m : Markdown) (id : Nat) (d : Docs) :
    print_type_info sa m id d = appOuts m (infoOuts sa id d) := by
  simp [print_type_info, docs_eq, infoOuts]

theorem info_clean (sa : SizeAlign) (id : Nat) (d : Docs) : Clean (infoOuts sa id d) := by
  refine clean_append (docs_clean d) ?_
  exact clean_cons _ (clean_cons _ (clean_single _))

theorem join_append (a b : List String) :
    String.join (a ++ b) = String.join a ++ String.join b := by
  apply String.ext
  simp

theorem src_appOuts (m : Markdown) (os) : (appOuts m os).src = m.src ++ outsStr os := by
  simp [Markdown.src, outsStr, appOuts, join_append]

/-! ## Renderer-body composition -/

/-- `f` appends `os` of text (no banner) and `hs` of registry entries while
leaving the counters alone whenever it succeeds. -/
def StepsTo (f : Markdown → Option Markdown) (hs : List (String × String)) : Prop :=
  ∀ m m', f m = Option.some m' → ∃ os, Clean os ∧
    m' = { m with outs := m.outs ++ os, hrefs := m.hrefs ++ hs }

theorem srcOnly_stepsTo {f} (hf : SrcOnly f) : StepsTo f [] := by
  intro m m' h
  rw [hf.1 m] at h
  cases h0 : f initMarkdown with
  | none => rw [h0] at h; cases h
  | some d =>
    rw [h0] at h
    simp at h
    refine ⟨d.outs, hf.2 d h0, ?_⟩
    rw [← h]
    simp [appOuts]

theorem stepsTo_foldlM {α : Type} (st : α → Markdown → Option Markdown)
    (hsOf : α → List (String × String)) (l : List α)
    (h : ∀ a ∈ l, StepsTo (st a) (hsOf a)) :
    StepsTo (fun m => l.foldlM (fun m a => st a m) m) (l.flatMap hsOf) := by
  induction l with
  | nil =>
    intro m m' hm
    simp [List.foldlM_nil] at hm
    exact ⟨[], clean_nil, by simp [← hm]⟩
  | cons x xs IH =>
    intro m m' hm
    simp only [List.foldlM_cons, Option.bind_eq_bind] at hm
    cases h1 : st x m with
    | none => rw [h1] at hm; cases hm
    | some m1 =>
      rw [h1] at hm
      simp only [Option.some_bind] at hm
      obtain ⟨os1, hc1, he1⟩ := h x (List.mem_cons_self x xs) m m1 h1
      obtain ⟨os2, hc2, he2⟩ :=
        IH (fun a ha => h a (List.mem_cons_of_mem x ha)) m1 m' hm
      refine ⟨os1 ++ os2, clean_append hc1 hc2, ?_⟩
      rw [he2, he1]
      simp [List.append_assoc]

/-- Pure append segment followed by a `SrcOnly` computation followed by a
pure append segment: the common shape of a renderer body item. -/
theorem stepsTo_sandwich (pre post : Markdown → Markdown) (preOuts postOuts)
    (hs : List (String × String))
    (hpre : ∀ m, pre m = { m with outs := m.outs ++ preOuts, hrefs := m.hrefs ++ hs })
    (hpreC : Clean preOuts)
    (hpost : ∀ m, post m = appOuts m postOuts) (hpostC : Clean postOuts)
    (f) (hf : SrcOnly f) :
    StepsTo (fun m => match f (pre m) with
      | Option.none => Option.none
      | Option.some m2 => Option.some (post m2)) hs := by
  intro m m' h
  dsimp only at h
  rw [hpre m, hf.1] at h
  cases h0 : f initMarkdown with
  | none => rw [h0] at h; cases h
  | some d =>
    rw [h0] at h
    simp only [Option.map_some'] at h
    rw [hpost] at h
    simp at h
    refine ⟨preOuts ++ d.outs ++ postOuts,
      clean_append (clean_append hpreC (hf.2 d h0)) hpostC, ?_⟩
    rw [← h]
    simp [appOuts, List.append_assoc]

/-- The registry entries a named type's body inserts: one per record
field, flag, variant case, or enum case — and none for any other kind. -/
def memberPairs (name : String) : TypeDefKind → List (String × String)
  | TypeDefKind.record r => r.fields.map (fun f =>
      (name ++ "::" ++ f.name, "#" ++ toSnakeCase name ++ "." ++ toSnakeCase f.name))
  | TypeDefKind.flags fl => fl.flags.map (fun f =>
      (name ++ "::" ++ f.name, "#" ++ toSnakeCase name ++ "." ++ toSnakeCase f.name))
  | TypeDefKind.variant v => v.cases.map (fun c =>
      (name ++ "::" ++ c.name, "#" ++ toSnakeCase name ++ "." ++ toSnakeCase c.name))
  | TypeDefKind.enum e => e.cases.map (fun c =>
      (name ++ "::" ++ c.name, "#" ++ toSnakeCase name ++ "." ++ toSnakeCase c.name))
  | _ => []

theorem flatMap_singleton {α β : Type} (g : α → β) (l : List α) :
    l.flatMap (fun a => [g a]) = l.map g := by
  induction l with
  | nil => rfl
  | cons x xs IH => simp [List.flatMap_cons, IH]

theorem map_snd_enum {α β : Type} (l : List α) (g : α → β) :
    l.enum.map (fun p => g p.2) = l.map g := by
  have e : (fun p : Nat × α => g p.2) = g ∘ Prod.snd := rfl
  rw [e, ← List.map_map, List.enum_map_snd]

/-- The canonical shape of a named-type section: the conditional banner,
the header, a clean body, one header registry entry plus the member
entries, and a type-counter increment. -/
def SectionShape (m m' : Markdown) (name : String) (hs : List (String × String)) : Prop :=
  ∃ os, Clean os ∧
    m' = { m with
      outs := m.outs ++ (if m.types = 0 then [(true, "# Types\n\n")] else [])
        ++ [(false, headerStr name)] ++ os,
      hrefs := m.hrefs ++ (name, anchorOf name) :: hs,
      types := m.types + 1 }

theorem assemble (m : Markdown) (name : String) (os1 : List (Bool × String))
    (hs1 : List (String × String)) (m' : Markdown) (hos : Clean os1)
    (h : m' = { print_type_header m name with
      outs := (print_type_header m name).outs ++ os1,
      hrefs := (print_type_header m name).hrefs ++ hs1 }) :
    SectionShape m m' name hs1 := by
  refine ⟨os1, hos, ?_⟩
  rw [h, print_type_header_eq]
  simp [List.append_assoc]

theorem type_record_step (iface : Interface) (sa : SizeAlign) (fuel id : Nat) (name : String)
    (r : Record) (d : Docs) (m m' : Markdown)
    (h : type_record iface sa fuel id name r d m = Option.some m') :
    SectionShape m m' name (memberPairs name (TypeDefKind.record r)) := by
  unfold type_record at h
  have hstep : ∀ f ∈ r.fields, StepsTo (fun m => (fun m field =>
      let m := push m ("- <a href=\"" ++ toSnakeCase name ++ "." ++ toSnakeCase field.name
        ++ "\" name=\"" ++ toSnakeCase name ++ "." ++ toSnakeCase field.name
        ++ "\"></a> [`" ++ field.name ++ "`](#" ++ toSnakeCase name ++ "."
        ++ toSnakeCase field.name ++ "): ")
      let m := insertHref m (name ++ "::" ++ field.name)
        ("#" ++ toSnakeCase name ++ "." ++ toSnakeCase field.name)
      match print_ty iface fuel field.ty false m with
      | Option.none => Option.none
      | Option.some m =>
        let m := push m "\n\n"
        let m := docs m field.docs
        Option.some (push m "\n")) m f)
      [(name ++ "::" ++ f.name, "#" ++ toSnakeCase name ++ "." ++ toSnakeCase f.name)] := by
    intro f _
    exact stepsTo_sandwich _ _ [(false, "- <a href=\"" ++ toSnakeCase name ++ "."
        ++ toSnakeCase f.name ++ "\" name=\"" ++ toSnakeCase name ++ "." ++ toSnakeCase f.name
        ++ "\"></a> [`" ++ f.name ++ "`](#" ++ toSnakeCase name ++ "."
        ++ toSnakeCase f.name ++ "): ")]
      ([(false, "\n\n")] ++ docsOuts f.docs ++ [(false, "\n")]) _
      (fun m => rfl) (clean_single _)
      (fun m2 => by simp [docs_eq, List.append_assoc])
      (by simp [docs_clean])
      _ (print_ty_srcOnly iface fuel f.ty false)
  obtain ⟨os, hc, he⟩ := stepsTo_foldlM _ _ r.fields hstep _ m' h
  refine assemble m name ([(false, "record\n\n")] ++ infoOuts sa id d
    ++ [(false, "\n### Record Fields\n\n")] ++ os) _ m'
    (by simp [info_clean, hc]) ?_
  rw [he]
  simp only [memberPairs, flatMap_singleton]
  simp [print_type_info_eq, List.append_assoc]

theorem type_tuple_step (iface : Interface) (sa : SizeAlign) (fuel id : Nat) (name : String)
    (t : Tuple) (d : Docs) (m m' : Markdown)
    (h : type_tuple iface sa fuel id name t d m = Option.some m') :
    SectionShape m m' name [] := by
  unfold type_tuple at h
  have hstep : ∀ f ∈ t.types, StepsTo (fun m => (fun m field =>
      let m := push m "- "
      match print_ty iface fuel field false m with
      | Option.none => Option.none
      | Option.some m => Option.some (push m "\n")) m f)
      ((fun _ => ([] : List (String × String))) f) := by
    intro f _
    exact stepsTo_sandwich _ _ [(false, "- ")] [(false, "\n")] _
      (fun m => by simp [appOuts]) (clean_single _) (fun m2 => by simp) (clean_single _)
      _ (print_ty_srcOnly iface fuel f false)
  obtain ⟨os, hc, he⟩ := stepsTo_foldlM _ _ t.types hstep _ m' h
  refine assemble m name ([(false, "tuple\n\n")] ++ infoOuts sa id d
    ++ [(false, "\n### Tuple Types\n\n")] ++ os) _ m'
    (by simp [info_clean, hc]) ?_
  rw [he]
  simp [print_type_info_eq, List.append_assoc]

theorem pure_items_foldl {α : Type} (step : α → Markdown → Markdown)
    (hsOf : α → List (String × String))
    (hstep : ∀ a m, ∃ os, Clean os ∧ step a m
      = { m with outs := m.outs ++ os, hrefs := m.hrefs ++ hsOf a })
    (l : List α) : ∀ m, ∃ os, Clean os ∧ l.foldl (fun m a => step a m) m
      = { m with outs := m.outs ++ os, hrefs := m.hrefs ++ l.flatMap hsOf } := by
  induction l with
  | nil =>
    intro m
    exact ⟨[], clean_nil, by simp⟩
  | cons x xs IH =>
    intro m
    obtain ⟨os1, hc1, he1⟩ := hstep x m
    obtain ⟨os2, hc2, he2⟩ := IH (step x m)
    refine ⟨os1 ++ os2, clean_append hc1 hc2, ?_⟩
    simp only [List.foldl_cons]
    rw [he2, he1]
    simp [List.append_assoc]

theorem type_flags_step (sa : SizeAlign) (id : Nat) (name : String)
    (fl : Flags) (d : Docs) (m : Markdown) :
    SectionShape m (type_flags sa id name fl d m) name
      (memberPairs name (TypeDefKind.flags fl)) := by
  unfold type_flags
  have hstep : ∀ (p : Nat × Flag) (mm : Markdown), ∃ os, Clean os ∧
      (fun (p : Nat × Flag) mm =>
        let m := push mm ("- <a href=\"" ++ toSnakeCase name ++ "." ++ toSnakeCase p.2.name
          ++ "\" name=\"" ++ toSnakeCase name ++ "." ++ toSnakeCase p.2.name
          ++ "\"></a> [`" ++ p.2.name ++ "`](#" ++ toSnakeCase name ++ "."
          ++ toSnakeCase p.2.name ++ ")")
        let m := insertHref m (name ++ "::" ++ p.2.name)
          ("#" ++ toSnakeCase name ++ "." ++ toSnakeCase p.2.name)
        let m := push m "\n\n"
        let m := docs m p.2.docs
        let m := push m ("Bit: " ++ toString p.1 ++ "\n")
        push m "\n") p mm
      = { mm with
          outs := mm.outs ++ os,
          hrefs := mm.hrefs ++ [(name ++ "::" ++ p.2.name,
            "#" ++ toSnakeCase name ++ "." ++ toSnakeCase p.2.name)] } := by
    intro p mm
    refine ⟨[(false, "- <a href=\"" ++ toSnakeCase name ++ "." ++ toSnakeCase p.2.name
        ++ "\" name=\"" ++ toSnakeCase name ++ "." ++ toSnakeCase p.2.name
        ++ "\"></a> [`" ++ p.2.name ++ "`](#" ++ toSnakeCase name ++ "."
        ++ toSnakeCase p.2.name ++ ")"), (false, "\n\n")] ++ docsOuts p.2.docs
      ++ [(false, "Bit: " ++ toString p.1 ++ "\n"), (false, "\n")], ?_, ?_⟩
    · simp [docs_clean]
    · simp [docs_eq, insertHref, push, appOuts, List.append_assoc]
  obtain ⟨os, hc, he⟩ := pure_items_foldl _ _ hstep (fl.flags.enum)
    (push (print_type_info sa (push (print_type_header m name) "flags\n\n") id d)
      "\n### Flags Fields\n\n")
  refine assemble m name ([(false, "flags\n\n")] ++ infoOuts sa id d
    ++ [(false, "\n### Flags Fields\n\n")] ++ os) _ _
    (by simp [info_clean, hc]) ?_
  rw [he]
  have hpairs : (fl.flags.enum).flatMap (fun (p : Nat × Flag) =>
      [(name ++ "::" ++ p.2.name, "#" ++ toSnakeCase name ++ "." ++ toSnakeCase p.2.name)])
      = memberPairs name (TypeDefKind.flags fl) := by
    rw [flatMap_singleton]
    simp only [memberPairs]
    exact map_snd_enum fl.flags (fun f =>
      (name ++ "::" ++ f.name, "#" ++ toSnakeCase name ++ "." ++ toSnakeCase f.name))
  rw [hpairs]
  simp [print_type_info_eq, List.append_assoc]

theorem type_variant_step (iface : Interface) (sa : SizeAlign) (fuel id : Nat) (name : String)
    (v : Variant) (d : Docs) (m m' : Markdown)
    (h : type_variant iface sa fuel id name v d m = Option.some m') :
    SectionShape m m' name (memberPairs name (TypeDefKind.variant v)) := by
  unfold type_variant at h
  have hstep : ∀ c ∈ v.cases, StepsTo (fun m => (fun m case =>
      let m := push m ("- <a href=\"" ++ toSnakeCase name ++ "." ++ toSnakeCase case.name
        ++ "\" name=\"" ++ toSnakeCase name ++ "." ++ toSnakeCase case.name
        ++ "\"></a> [`" ++ case.name ++ "`](#" ++ toSnakeCase name ++ "."
        ++ toSnakeCase case.name ++ ")")
      let m := insertHref m (name ++ "::" ++ case.name)
        ("#" ++ toSnakeCase name ++ "." ++ toSnakeCase case.name)
      let m := push m ": "
      match print_ty iface fuel case.ty false m with
      | Option.none => Option.none
      | Option.some m =>
        let m := push m "\n\n"
        let m := docs m case.docs
        Option.some (push m "\n")) m c)
      [(name ++ "::" ++ c.name, "#" ++ toSnakeCase name ++ "." ++ toSnakeCase c.name)] := by
    intro c _
    exact stepsTo_sandwich _ _ [(false, "- <a href=\"" ++ toSnakeCase name ++ "."
        ++ toSnakeCase c.name ++ "\" name=\"" ++ toSnakeCase name ++ "." ++ toSnakeCase c.name
        ++ "\"></a> [`" ++ c.name ++ "`](#" ++ toSnakeCase name ++ "."
        ++ toSnakeCase c.name ++ ")"), (false, ": ")]
      ([(false, "\n\n")] ++ docsOuts c.docs ++ [(false, "\n")]) _
      (fun m => by simp [insertHref, push, appOuts]) (clean_cons _ (clean_single _))
      (fun m2 => by simp [docs_eq, List.append_assoc])
      (by simp [docs_clean])
      _ (print_ty_srcOnly iface fuel c.ty false)
  obtain ⟨os, hc, he⟩ := stepsTo_foldlM _ _ v.cases hstep _ m' h
  refine assemble m name ([(false, "variant\n\n")] ++ infoOuts sa id d
    ++ [(false, "\n### Variant Cases\n\n")] ++ os) _ m'
    (by simp [info_clean, hc]) ?_
  rw [he]
  simp only [memberPairs, flatMap_singleton]
  simp [print_type_info_eq, List.append_assoc]

theorem type_enum_step (sa : SizeAlign) (id : Nat) (name : String)
    (e : Enum) (d : Docs) (m : Markdown) :
    SectionShape m (type_enum sa id name e d m) name
      (memberPairs name (TypeDefKind.enum e)) := by
  unfold type_enum
  have hstep : ∀ (c : EnumCase) (mm : Markdown), ∃ os, Clean os ∧
      (fun (c : EnumCase) mm =>
        let m := push mm ("- <a href=\"" ++ toSnakeCase name ++ "." ++ toSnakeCase c.name
          ++ "\" name=\"" ++ toSnakeCase name ++ "." ++ toSnakeCase c.name
          ++ "\"></a> [`" ++ c.name ++ "`](#" ++ toSnakeCase name ++ "."
          ++ toSnakeCase c.name ++ ")")
        let m := insertHref m (name ++ "::" ++ c.name)
          ("#" ++ toSnakeCase name ++ "." ++ toSnakeCase c.name)
        let m := push m "\n\n"
        let m := docs m c.docs
        push m "\n") c mm
      = { mm with
          outs := mm.outs ++ os,
          hrefs := mm.hrefs ++ [(name ++ "::" ++ c.name,
            "#" ++ toSnakeCase name ++ "." ++ toSnakeCase c.name)] } := by
    intro c mm
    refine ⟨[(false, "- <a href=\"" ++ toSnakeCase name ++ "." ++ toSnakeCase c.name
        ++ "\" name=\"" ++ toSnakeCase name ++ "." ++ toSnakeCase c.name
        ++ "\"></a> [`" ++ c.name ++ "`](#" ++ toSnakeCase name ++ "."
        ++ toSnakeCase c.name ++ ")"), (false, "\n\n")] ++ docsOuts c.docs
      ++ [(false, "\n")], ?_, ?_⟩
    · simp [docs_clean]
    · simp [docs_eq, insertHref, push, appOuts, List.append_assoc]
  obtain ⟨os, hc, he⟩ := pure_items_foldl _ _ hstep e.cases
    (push (print_type_info sa (push (print_type_header m name) "enum\n\n") id d)
      "\n### Enum Cases\n\n")
  refine assemble m name ([(false, "enum\n\n")] ++ infoOuts sa id d
    ++ [(false, "\n### Enum Cases\n\n")] ++ os) _ _
    (by simp [info_clean, hc]) ?_
  rw [he]
  rw [flatMap_singleton]
  simp only [memberPairs]
  simp [print_type_info_eq, List.append_assoc]

theorem type_union_step (iface : Interface) (sa : SizeAlign) (fuel id : Nat) (name : String)
    (u : Union) (d : Docs) (m m' : Markdown)
    (h : type_union iface sa fuel id name u d m = Option.some m') :
    SectionShape m m' name [] := by
  unfold type_union at h
  have hstep : ∀ c ∈ u.cases, StepsTo (fun m => (fun m case =>
      let m := push m "- "
      match print_ty iface fuel case.ty false m with
      | Option.none => Option.none
      | Option.some m =>
        let m := push m "\n\n"
        let m := docs m case.docs
        Option.some (push m "\n")) m c)
      ((fun _ => ([] : List (String × String))) c) := by
    intro c _
    exact stepsTo_sandwich _ _ [(false, "- ")]
      ([(false, "\n\n")] ++ docsOuts c.docs ++ [(false, "\n")]) _
      (fun m => by simp [appOuts]) (clean_single _)
      (fun m2 => by simp [docs_eq, List.append_assoc])
      (by simp [docs_clean])
      _ (print_ty_srcOnly iface fuel c.ty false)
  obtain ⟨os, hc, he⟩ := stepsTo_foldlM _ _ u.cases hstep _ m' h
  refine assemble m name ([(false, "union\n\n")] ++ infoOuts sa id d
    ++ [(false, "\n### Union Cases\n\n")] ++ os) _ m'
    (by simp [info_clean, hc]) ?_
  rw [he]
  simp [print_type_info_eq, List.append_assoc]

/-- Two `SrcOnly` computations joined by pure append segments: the body
shape of the `Expected`/`Stream` renderers. -/
theorem stepsTo_sandwich2 (pre mid post : Markdown → Markdown)
    (preOuts midOuts postOuts : List (Bool × String))
    (hpre : ∀ m, pre m = appOuts m preOuts) (hpreC : Clean preOuts)
    (hmid : ∀ m, mid m = appOuts m midOuts) (hmidC : Clean midOuts)
    (hpost : ∀ m, post m = appOuts m postOuts) (hpostC : Clean postOuts)
    (f g) (hf : SrcOnly f) (hg : SrcOnly g) :
    StepsTo (fun m => match f (pre m) with
      | Option.none => Option.none
      | Option.some m2 =>
        match g (mid m2) with
        | Option.none => Option.none
        | Option.some m3 => Option.some (post m3)) [] := by
  intro m m' h
  dsimp only at h
  rw [hpre, hf.1] at h
  cases h0 : f initMarkdown with
  | none => rw [h0] at h; cases h
  | some d =>
    rw [h0] at h
    simp only [Option.map_some'] at h
    rw [hmid, hg.1] at h
    cases h1 : g initMarkdown with
    | none => rw [h1] at h; cases h
    | some e =>
      rw [h1] at h
      simp only [Option.map_some'] at h
      rw [hpost] at h
      simp at h
      refine ⟨preOuts ++ d.outs ++ midOuts ++ e.outs ++ postOuts,
        by simp [hpreC, hmidC, hpostC, hf.2 d h0, hg.2 e h1], ?_⟩
      rw [← h]
      simp [appOuts, List.append_assoc]

theorem type_option_step (iface : Interface) (sa : SizeAlign) (fuel id : Nat) (name : String)
    (t : Ty) (d : Docs) (m m' : Markdown)
    (h : type_option iface sa fuel id name t d m = Option.some m') :
    SectionShape m m' name [] := by
  unfold type_option at h
  obtain ⟨os, hc, he⟩ := stepsTo_sandwich
    (fun mm => push (push (print_type_info sa (push mm "option\n\n") id d)
      "\n### Option\n\n") "- ")
    (fun m2 => push m2 "\n\n")
    ([(false, "option\n\n")] ++ infoOuts sa id d
      ++ [(false, "\n### Option\n\n"), (false, "- ")])
    [(false, "\n\n")] []
    (fun mm => by simp [print_type_info_eq, appOuts, List.append_assoc])
    (by simp [info_clean])
    (fun m2 => by simp) (clean_single _)
    _ (print_ty_srcOnly iface fuel t false)
    (print_type_header m name) m' h
  exact assemble m name os [] m' hc he

theorem type_expected_step (iface : Interface) (sa : SizeAlign) (fuel id : Nat) (name : String)
    (e : Expected) (d : Docs) (m m' : Markdown)
    (h : type_expected iface sa fuel id name e d m = Option.some m') :
    SectionShape m m' name [] := by
  unfold type_expected at h
  obtain ⟨os, hc, he⟩ := stepsTo_sandwich2
    (fun mm => push (push (print_type_info sa (push mm "expected\n\n") id d)
      "\n### Expected\n\n") "- ok: ")
    (fun m2 => push (push m2 "\n") "- err: ")
    (fun m3 => push m3 "\n\n")
    ([(false, "expected\n\n")] ++ infoOuts sa id d
      ++ [(false, "\n### Expected\n\n"), (false, "- ok: ")])
    [(false, "\n"), (false, "- err: ")]
    [(false, "\n\n")]
    (fun mm => by simp [print_type_info_eq, appOuts, List.append_assoc])
    (by simp [info_clean])
    (fun m2 => by simp) (clean_cons _ (clean_single _))
    (fun m3 => by simp) (clean_single _)
    _ _ (print_ty_srcOnly iface fuel e.ok false) (print_ty_srcOnly iface fuel e.err false)
    (print_type_header m name) m' h
  exact assemble m name os [] m' hc he

theorem type_future_step (iface : Interface) (sa : SizeAlign) (fuel id : Nat) (name : String)
    (t : Ty) (d : Docs) (m m' : Markdown)
    (h : type_future iface sa fuel id name t d m = Option.some m') :
    SectionShape m m' name [] := by
  unfold type_future at h
  obtain ⟨os, hc, he⟩ := stepsTo_sandwich
    (fun mm => push (push (print_type_info sa (push mm "future\n\n") id d)
      "\n### Future\n\n") "- ")
    (fun m2 => push m2 "\n\n")
    ([(false, "future\n\n")] ++ infoOuts sa id d
      ++ [(false, "\n### Future\n\n"), (false, "- ")])
    [(false, "\n\n")] []
    (fun mm => by simp [print_type_info_eq, appOuts, List.append_assoc])
    (by simp [info_clean])
    (fun m2 => by simp) (clean_single _)
    _ (print_ty_srcOnly iface fuel t false)
    (print_type_header m name) m' h
  exact assemble m name os [] m' hc he

theorem type_stream_step (iface : Interface) (sa : SizeAlign) (fuel id : Nat) (name : String)
    (s : Stream) (d : Docs) (m m' : Markdown)
    (h : type_stream iface sa fuel id name s d m = Option.some m') :
    SectionShape m m' name [] := by
  unfold type_stream at h
  obtain ⟨os, hc, he⟩ := stepsTo_sandwich2
    (fun mm => push (push (print_type_info sa (push mm "stream\n\n") id d)
      "\n### Stream\n\n") "- ok: ")
    (fun m2 => push (push m2 "\n") "- err: ")
    (fun m3 => push m3 "\n\n")
    ([(false, "stream\n\n")] ++ infoOuts sa id d
      ++ [(false, "\n### Stream\n\n"), (false, "- ok: ")])
    [(false, "\n"), (false, "- err: ")]
    [(false, "\n\n")]
    (fun mm => by simp [print_type_info_eq, appOuts, List.append_assoc])
    (by simp [info_clean])
    (fun m2 => by simp) (clean_cons _ (clean_single _))
    (fun m3 => by simp) (clean_single _)
    _ _ (print_ty_srcOnly iface fuel s.element false)
    (print_ty_srcOnly iface fuel s.end_ false)
    (print_type_header m name) m' h
  exact assemble m name os [] m' hc he

theorem type_alias_step (iface : Interface) (sa : SizeAlign) (fuel id : Nat) (name : String)
    (ty : Ty) (d : Docs) (m m' : Markdown)
    (h : type_alias iface sa fuel id name ty d m = Option.some m') :
    SectionShape m m' name [] := by
  unfold type_alias at h
  obtain ⟨os, hc, he⟩ := stepsTo_sandwich
    (fun mm => mm)
    (fun m2 => push (print_type_info sa (push m2 "\n\n") id d) "\n")
    [] ([(false, "\n\n")] ++ infoOuts sa id d ++ [(false, "\n")]) []
    (fun mm => by simp) clean_nil
    (fun m2 => by simp [print_type_info_eq, appOuts, List.append_assoc])
    (by simp [info_clean])
    _ (print_ty_srcOnly iface fuel ty true)
    (print_type_header m name) m' h
  exact assemble m name os [] m' hc he

/-- One iteration of the named-type loop of `process`: unnamed types are
skipped unchanged; a named type appends its section (banner included when
it is the first), registers its header and member anchors, and bumps the
type counter. -/
theorem renderType_step (iface : Interface) (sa : SizeAlign) (fuel : Nat) (p : Nat × TypeDef)
    (m m' : Markdown) (h : renderType iface sa fuel p m = Option.some m') :
    (p.2.name = Option.none ∧ m' = m) ∨
    (∃ name, p.2.name = Option.some name
      ∧ SectionShape m m' name (memberPairs name p.2.kind)) := by
  unfold renderType at h
  cases hn : p.2.name with
  | none =>
    rw [hn] at h
    simp at h
    exact Or.inl ⟨rfl, h.symm⟩
  | some name =>
    rw [hn] at h
    refine Or.inr ⟨name, rfl, ?_⟩
    cases hk : p.2.kind with
    | record r =>
      rw [hk] at h
      exact type_record_step iface sa fuel p.1 name r p.2.docs m m' h
    | tuple t =>
      rw [hk] at h
      exact type_tuple_step iface sa fuel p.1 name t p.2.docs m m' h
    | flags fl =>
      rw [hk] at h
      simp at h
      rw [← h]
      exact type_flags_step sa p.1 name fl p.2.docs m
    | variant v =>
      rw [hk] at h
      exact type_variant_step iface sa fuel p.1 name v p.2.docs m m' h
    | type t =>
      rw [hk] at h
      exact type_alias_step iface sa fuel p.1 name t p.2.docs m m' h
    | list t =>
      rw [hk] at h
      exact type_alias_step iface sa fuel p.1 name (Ty.id p.1) p.2.docs m m' h
    | enum e =>
      rw [hk] at h
      simp at h
      rw [← h]
      exact type_enum_step sa p.1 name e p.2.docs m
    | option t =>
      rw [hk] at h
      exact type_option_step iface sa fuel p.1 name t p.2.docs m m' h
    | expected e =>
      rw [hk] at h
      exact type_expected_step iface sa fuel p.1 name e p.2.docs m m' h
    | union u =>
      rw [hk] at h
      exact type_union_step iface sa fuel p.1 name u p.2.docs m m' h
    | future t =>
      rw [hk] at h
      exact type_future_step iface sa fuel p.1 name t p.2.docs m m' h
    | stream s =>
      rw [hk] at h
      exact type_stream_step iface sa fuel p.1 name s p.2.docs m m' h

/-! ## The function renderer -/

/-- What `print_ty` pushes for `t` (with name links active), on success;
`[]` after an abort. -/
def ptOuts (iface : Interface) (fuel : Nat) (t : Ty) : List (Bool × String) :=
  ((print_ty iface fuel t false initMarkdown).map Markdown.outs).getD []

/-- `print_ty` succeeds on `t` at this fuel. -/
def ptOk (iface : Interface) (fuel : Nat) (t : Ty) : Prop :=
  (print_ty iface fuel t false initMarkdown).isSome

instance decPtOk (iface : Interface) (fuel : Nat) (t : Ty) : Decidable (ptOk iface fuel t) :=
  inferInstanceAs (Decidable ((print_ty iface fuel t false initMarkdown).isSome = true))

/-- The text `print_ty` produces for `t`. -/
def ptStr (iface : Interface) (fuel : Nat) (t : Ty) : String :=
  outsStr (ptOuts iface fuel t)

theorem ptOuts_clean (iface : Interface) (fuel : Nat) (t : Ty) :
    Clean (ptOuts iface fuel t) := by
  unfold ptOuts
  cases h : print_ty iface fuel t false initMarkdown with
  | none => simp
  | some d =>
    simp only [Option.map_some', Option.getD_some]
    exact print_ty_clean iface fuel t false d h

theorem print_ty_eq_of_ptOk (iface : Interface) (fuel : Nat) (t : Ty) (m : Markdown)
    (h : ptOk iface fuel t) :
    print_ty iface fuel t false m = Option.some (appOuts m (ptOuts iface fuel t)) := by
  unfold ptOk at h
  cases h0 : print_ty iface fuel t false initMarkdown with
  | none => rw [h0] at h; cases h
  | some d =>
    rw [print_ty_factor, h0]
    simp [ptOuts, h0]

/-- The anchored entry line opening for one function parameter. -/
def paramEntryStr (fname pname : String) : String :=
  "- <a href=\"#" ++ toSnakeCase fname ++ "." ++ toSnakeCase pname ++ "\" name=\""
    ++ toSnakeCase fname ++ "." ++ toSnakeCase pname ++ "\"></a> `" ++ pname ++ "`: "

/-- What the `Params` loop pushes: one anchored entry, the printed type and
a newline per parameter, in order. -/
def paramsOuts (iface : Interface) (fuel : Nat) (fname : String)
    (l : List (String × Ty)) : List (Bool × String) :=
  l.flatMap (fun p => (false, paramEntryStr fname p.1) :: (ptOuts iface fuel p.2
    ++ [(false, "\n")]))

/-- Everything one function's block pushes after its conditional banner. -/
def funcOuts (iface : Interface) (fuel : Nat) (f : Func) : List (Bool × String) :=
  [(false, "----\n\n"), (false, funcHdrStr f.name), (false, f.name), (false, "` "),
    (false, "\n\n")]
  ++ docsOuts f.docs
  ++ (if f.params.length = 0 then []
      else (false, "##### Params\n\n") :: paramsOuts iface fuel f.name f.params)
  ++ [(false, "##### Result\n\n"), (false, "- ")] ++ ptOuts iface fuel f.result
  ++ [(false, "\n"), (false, "\n")]

theorem paramsOuts_clean (iface : Interface) (fuel : Nat) (fname : String)
    (l : List (String × Ty)) : Clean (paramsOuts iface fuel fname l) := by
  intro q hq
  simp only [paramsOuts, List.mem_flatMap] at hq
  obtain ⟨p, _, hq⟩ := hq
  rcases List.mem_cons.mp hq with h0 | h0
  · simp [h0]
  · rcases List.mem_append.mp h0 with h1 | h1
    · exact ptOuts_clean iface fuel p.2 q h1
    · simp at h1
      simp [h1]

theorem funcOuts_clean (iface : Interface) (fuel : Nat) (f : Func) :
    Clean (funcOuts iface fuel f) := by
  unfold funcOuts
  by_cases hp : f.params.length = 0 <;>
    simp [hp, docs_clean, ptOuts_clean, paramsOuts_clean]

theorem params_foldlM (iface : Interface) (fuel : Nat) (fname : String)
    (l : List (String × Ty)) : ∀ m m',
    l.foldlM (fun m p =>
      let m := push m ("- <a href=\"#" ++ toSnakeCase fname ++ "." ++ toSnakeCase p.1
        ++ "\" name=\"" ++ toSnakeCase fname ++ "." ++ toSnakeCase p.1
        ++ "\"></a> `" ++ p.1 ++ "`: ")
      match print_ty iface fuel p.2 false m with
      | Option.none => Option.none
      | Option.some m => Option.some (push m "\n")) m = Option.some m' →
    (∀ p ∈ l, ptOk iface fuel p.2)
      ∧ m' = appOuts m (paramsOuts iface fuel fname l) := by
  induction l with
  | nil =>
    intro m m' h
    simp [List.foldlM_nil] at h
    simp [paramsOuts, ← h]
  | cons p ps IH =>
    intro m m' h
    simp only [List.foldlM_cons, Option.bind_eq_bind] at h
    cases h1 : print_ty iface fuel p.2 false (push m ("- <a href=\"#" ++ toSnakeCase fname
        ++ "." ++ toSnakeCase p.1 ++ "\" name=\"" ++ toSnakeCase fname ++ "."
        ++ toSnakeCase p.1 ++ "\"></a> `" ++ p.1 ++ "`: ")) with
    | none => rw [h1] at h; cases h
    | some mp =>
      rw [h1] at h
      simp only [Option.some_bind] at h
      have hok : ptOk iface fuel p.2 := by
        unfold ptOk
        rw [print_ty_factor] at h1
        cases h2 : print_ty iface fuel p.2 false initMarkdown with
        | none => rw [h2] at h1; cases h1
        | some d => simp
      have h1' := print_ty_eq_of_ptOk iface fuel p.2 (push m ("- <a href=\"#"
        ++ toSnakeCase fname ++ "." ++ toSnakeCase p.1 ++ "\" name=\"" ++ toSnakeCase fname
        ++ "." ++ toSnakeCase p.1 ++ "\"></a> `" ++ p.1 ++ "`: ")) hok
      rw [h1'] at h1
      cases h1
      obtain ⟨hok2, he⟩ := IH _ m' h
      refine ⟨?_, ?_⟩
      · intro q hq
        rcases List.mem_cons.mp hq with h0 | h0
        · rw [h0]; exact hok
        · exact hok2 q h0
      · rw [he]
        simp [paramsOuts, paramEntryStr, List.append_assoc]

/-- `funcHeaderState` in closed form. -/
theorem funcHeaderState_eq (f : Func) (m : Markdown) :
    funcHeaderState f m = { m with
      outs := m.outs ++ (if m.funcs = 0 then [(true, "# Functions\n\n")] else [])
        ++ [(false, "----\n\n"), (false, funcHdrStr f.name), (false, f.name), (false, "` "),
            (false, "\n\n")] ++ docsOuts f.docs,
      hrefs := m.hrefs ++ [(f.name, anchorOf f.name)],
      funcs := m.funcs + 1 } := by
  by_cases h : m.funcs = 0 <;>
    simp [funcHeaderState, h, docs_eq, insertHref, push, pushB, appOuts, funcHdrStr, anchorOf,
      List.append_assoc]

/-- `funcParamsState` in closed form: it succeeds only when every
parameter type prints, emits nothing when the parameter list is empty, and
otherwise emits the `Params` header and one entry per parameter. -/
theorem funcParamsState_eq (iface : Interface) (fuel : Nat) (f : Func) (m0 q : Markdown)
    (h : funcParamsState iface fuel f m0 = Option.some q) :
    (∀ p ∈ f.params, ptOk iface fuel p.2) ∧
    q = appOuts m0 (if f.params.length = 0 then []
      else (false, "##### Params\n\n") :: paramsOuts iface fuel f.name f.params) := by
  unfold funcParamsState at h
  by_cases hpar : f.params.length > 0
  · rw [if_pos hpar] at h
    obtain ⟨hok, he⟩ := params_foldlM iface fuel f.name f.params _ _ h
    refine ⟨hok, ?_⟩
    rw [he]
    have hne : ¬ f.params.length = 0 := by omega
    simp [hne, appOuts, List.append_assoc]
  · rw [if_neg hpar] at h
    have h0 : f.params.length = 0 := by omega
    have hnil : f.params = [] := List.length_eq_zero.mp h0
    simp at h
    exact ⟨by simp [hnil], by simp [h0, ← h]⟩

/-- One iteration of the function loop of `process`, characterized fully:
it succeeds exactly when all parameter types and the result type print;
it emits the conditional banner and the function block (rule, header,
docs, the `Params` subsection only for a non-empty parameter list, the
single `Result` entry), registers the function's anchor, and bumps the
function counter. -/
theorem funcStep_detail (iface : Interface) (fuel : Nat) (f : Func) (m m' : Markdown)
    (h : funcStep iface fuel f m = Option.some m') :
    (∀ p ∈ f.params, ptOk iface fuel p.2) ∧ ptOk iface fuel f.result ∧
    m' = { m with
      outs := m.outs ++ (if m.funcs = 0 then [(true, "# Functions\n\n")] else [])
        ++ funcOuts iface fuel f,
      hrefs := m.hrefs ++ [(f.name, anchorOf f.name)],
      funcs := m.funcs + 1 } := by
  unfold funcStep at h
  cases hs : funcParamsState iface fuel f (funcHeaderState f m) with
  | none => rw [hs] at h; cases h
  | some q =>
    rw [hs] at h
    dsimp only at h
    obtain ⟨hok, hq⟩ := funcParamsState_eq iface fuel f _ q hs
    cases hres : print_ty iface fuel f.result false (push (push q "##### Result\n\n") "- ") with
    | none => rw [hres] at h; cases h
    | some mr =>
      rw [hres] at h
      simp at h
      have hrok : ptOk iface fuel f.result := by
        unfold ptOk
        rw [print_ty_factor] at hres
        cases h2 : print_ty iface fuel f.result false initMarkdown with
        | none => rw [h2] at hres; cases hres
        | some d => simp
      have hres' := print_ty_eq_of_ptOk iface fuel f.result
        (push (push q "##### Result\n\n") "- ") hrok
      have hmr : mr = appOuts (push (push q "##### Result\n\n") "- ")
          (ptOuts iface fuel f.result) :=
        (Option.some.inj (hres'.symm.trans hres)).symm
      refine ⟨hok, hrok, ?_⟩
      rw [← h, hmr, hq, funcHeaderState_eq]
      unfold funcOuts
      simp [appOuts, push, List.append_assoc]

/-! ## Loop lemmas and the whole-pass shape -/

/-- Number of named types in an indexed type list. -/
def countNamed (l : List (Nat × TypeDef)) : Nat := l.countP (fun p => p.2.name.isSome)

/-- All registry entries one indexed type contributes. -/
def typeHrefPairs (p : Nat × TypeDef) : List (String × String) :=
  match p.2.name with
  | Option.none => []
  | Option.some n => (n, anchorOf n) :: memberPairs n p.2.kind

/-- The name of the first named type, if any. -/
def firstNamedName : List (Nat × TypeDef) → Option String
  | [] => Option.none
  | p :: rest =>
    match p.2.name with
    | Option.some n => Option.some n
    | Option.none => firstNamedName rest

/-- The named-type loop of `process`: it leaves `funcs` alone, counts the
named types into `types`, appends every header and member registry entry
in order, and emits the `# Types` banner exactly at the first named type's
header (and not at all when the starting counter is positive or no type is
named). -/
theorem types_loop (iface : Interface) (sa : SizeAlign) (fuel : Nat)
    (l : List (Nat × TypeDef)) : ∀ m m',
    l.foldlM (fun m p => renderType iface sa fuel p m) m = Option.some m' →
    m'.funcs = m.funcs ∧ m'.types = m.types + countNamed l
    ∧ m'.hrefs = m.hrefs ++ l.flatMap typeHrefPairs
    ∧ (m.types ≠ 0 → ∃ os, Clean os ∧ m'.outs = m.outs ++ os)
    ∧ (m.types = 0 →
        match firstNamedName l with
        | Option.none => m'.outs = m.outs
        | Option.some n => ∃ os, Clean os ∧ m'.outs = m.outs
            ++ [(true, "# Types\n\n"), (false, headerStr n)] ++ os) := by
  induction l with
  | nil =>
    intro m m' h
    simp [List.foldlM_nil] at h
    subst h
    refine ⟨rfl, by simp [countNamed], by simp [List.flatMap_nil], ?_, ?_⟩
    · intro _
      exact ⟨[], clean_nil, by simp⟩
    · intro _
      simp [firstNamedName]
  | cons p rest IH =>
    intro m m' h
    simp only [List.foldlM_cons, Option.bind_eq_bind] at h
    cases h1 : renderType iface sa fuel p m with
    | none => rw [h1] at h; cases h
    | some m1 =>
      rw [h1] at h
      simp only [Option.some_bind] at h
      obtain ⟨hfu, hty, hhr, hne, hz⟩ := IH m1 m' h
      rcases renderType_step iface sa fuel p m m1 h1 with ⟨hn, he⟩ | ⟨name, hn, os1, hc1, he⟩
      · subst he
        refine ⟨hfu, ?_, ?_, hne, ?_⟩
        · rw [hty]
          simp [countNamed, List.countP_cons, hn]
        · rw [hhr]
          simp [typeHrefPairs, hn]
        · intro h0
          have := hz h0
          simpa [firstNamedName, hn] using this
      · have hm1outs : m1.outs = m.outs
            ++ (if m.types = 0 then [(true, "# Types\n\n")] else [])
            ++ [(false, headerStr name)] ++ os1 := by rw [he]
        have hm1hrefs : m1.hrefs = m.hrefs ++ (name, anchorOf name)
            :: memberPairs name p.2.kind := by rw [he]
        have hm1types : m1.types = m.types + 1 := by rw [he]
        have hm1funcs : m1.funcs = m.funcs := by rw [he]
        have hm1ne : m1.types ≠ 0 := by omega
        obtain ⟨os2, hc2, he2⟩ := hne hm1ne
        refine ⟨by rw [hfu, hm1funcs], ?_, ?_, ?_, ?_⟩
        · rw [hty, hm1types]
          simp [countNamed, List.countP_cons, hn]
          omega
        · rw [hhr, hm1hrefs]
          simp [typeHrefPairs, hn, List.append_assoc]
        · intro h0
          refine ⟨[(false, headerStr name)] ++ os1 ++ os2, by simp [hc1, hc2], ?_⟩
          rw [he2, hm1outs]
          simp [h0, List.append_assoc]
        · intro h0
          simp only [firstNamedName, hn]
          refine ⟨os1 ++ os2, by simp [hc1, hc2], ?_⟩
          rw [he2, hm1outs]
          simp [h0, List.append_assoc]

/-- The function loop of `process`: it leaves `types` alone, counts the
functions into `funcs`, appends one registry entry per function in order,
and emits the `# Functions` banner exactly at the first function's block
(and not at all when the starting counter is positive or there is no
function). -/
theorem funcs_loop (iface : Interface) (fuel : Nat) (l : List Func) : ∀ m m',
    l.foldlM (fun m f => funcStep iface fuel f m) m = Option.some m' →
    m'.types = m.types ∧ m'.funcs = m.funcs + l.length
    ∧ m'.hrefs = m.hrefs ++ l.map (fun f => (f.name, anchorOf f.name))
    ∧ (m.funcs ≠ 0 → ∃ os, Clean os ∧ m'.outs = m.outs ++ os)
    ∧ (m.funcs = 0 →
        match l with
        | [] => m'.outs = m.outs
        | f0 :: _ => ∃ os, Clean os ∧ m'.outs = m.outs
            ++ [(true, "# Functions\n\n"), (false, "----\n\n"),
                (false, funcHdrStr f0.name)] ++ os) := by
  induction l with
  | nil =>
    intro m m' h
    simp [List.foldlM_nil] at h
    subst h
    exact ⟨rfl, by simp, by simp, fun _ => ⟨[], clean_nil, by simp⟩, fun _ => rfl⟩
  | cons f rest IH =>
    intro m m' h
    simp only [List.foldlM_cons, Option.bind_eq_bind] at h
    cases h1 : funcStep iface fuel f m with
    | none => rw [h1] at h; cases h
    | some m1 =>
      rw [h1] at h
      simp only [Option.some_bind] at h
      obtain ⟨hty, hfu, hhr, hne, _⟩ := IH m1 m' h
      obtain ⟨_, _, he⟩ := funcStep_detail iface fuel f m m1 h1
      have hm1types : m1.types = m.types := by rw [he]
      have hm1funcs : m1.funcs = m.funcs + 1 := by rw [he]
      have hm1hrefs : m1.hrefs = m.hrefs ++ [(f.name, anchorOf f.name)] := by rw [he]
      have hm1outs : m1.outs = m.outs
          ++ (if m.funcs = 0 then [(true, "# Functions\n\n")] else [])
          ++ funcOuts iface fuel f := by rw [he]
      have hm1ne : m1.funcs ≠ 0 := by omega
      obtain ⟨os2, hc2, he2⟩ := hne hm1ne
      have hdecomp : funcOuts iface fuel f = [(false, "----\n\n"),
          (false, funcHdrStr f.name)] ++ ([(false, f.name), (false, "` "), (false, "\n\n")]
          ++ docsOuts f.docs
          ++ (if f.params.length = 0 then []
              else (false, "##### Params\n\n") :: paramsOuts iface fuel f.name f.params)
          ++ [(false, "##### Result\n\n"), (false, "- ")] ++ ptOuts iface fuel f.result
          ++ [(false, "\n"), (false, "\n")]) := by
        simp [funcOuts, List.append_assoc]
      have hfc : Clean (funcOuts iface fuel f) := funcOuts_clean iface fuel f
      refine ⟨by rw [hty, hm1types], by rw [hfu, hm1funcs]; simp; omega, ?_, ?_, ?_⟩
      · rw [hhr, hm1hrefs]
        simp [List.append_assoc]
      · intro h0
        refine ⟨funcOuts iface fuel f ++ os2, by simp [hfc, hc2], ?_⟩
        rw [he2, hm1outs]
        simp [h0, List.append_assoc]
      · intro h0
        rw [hdecomp] at hm1outs hfc
        simp only [clean_append_iff] at hfc
        refine ⟨([(false, f.name), (false, "` "), (false, "\n\n")]
          ++ docsOuts f.docs
          ++ (if f.params.length = 0 then []
              else (false, "##### Params\n\n") :: paramsOuts iface fuel f.name f.params)
          ++ [(false, "##### Result\n\n"), (false, "- ")] ++ ptOuts iface fuel f.result
          ++ [(false, "\n"), (false, "\n")]) ++ os2,
          by by_cases hp : f.params.length = 0 <;>
            simp [hp, docs_clean, ptOuts_clean, paramsOuts_clean, hc2], ?_⟩
        rw [he2, hm1outs]
        simp [h0, List.append_assoc]

/-- The whole-pass shape of `render`: final counter values, the exact
registry contents (types in order, then functions), and the banner/header
structure of the output trace. -/
theorem render_shape (iface : Interface) (sa : SizeAlign) (fuel : Nat) (m' : Markdown)
    (h : render iface sa fuel = Option.some m') :
    m'.types = countNamed iface.types.enum
    ∧ m'.funcs = iface.functions.length
    ∧ m'.hrefs = iface.types.enum.flatMap typeHrefPairs
        ++ iface.functions.map (fun f => (f.name, anchorOf f.name))
    ∧ ∃ tOuts fOuts, m'.outs = tOuts ++ fOuts
      ∧ (match firstNamedName iface.types.enum with
         | Option.none => tOuts = []
         | Option.some n => ∃ os, Clean os
            ∧ tOuts = [(true, "# Types\n\n"), (false, headerStr n)] ++ os)
      ∧ (match iface.functions with
         | [] => fOuts = []
         | f0 :: _ => ∃ os, Clean os
            ∧ fOuts = [(true, "# Functions\n\n"), (false, "----\n\n"),
                (false, funcHdrStr f0.name)] ++ os) := by
  unfold render process at h
  cases h1 : (iface.types.enum).foldlM
      (fun m p => renderType iface sa fuel p m) initMarkdown with
  | none => rw [h1] at h; cases h
  | some m1 =>
    rw [h1] at h
    dsimp only at h
    obtain ⟨hfu1, hty1, hhr1, _, hz1⟩ := types_loop iface sa fuel _ _ _ h1
    obtain ⟨hty2, hfu2, hhr2, _, hz2⟩ := funcs_loop iface fuel _ _ _ h
    have hm1f0 : m1.funcs = 0 := by rw [hfu1]; rfl
    refine ⟨by rw [hty2, hty1]; simp, by rw [hfu2, hm1f0]; simp, ?_, ?_⟩
    · rw [hhr2, hhr1]
      simp
    · have hzz := hz1 (by simp)
      have hff := hz2 hm1f0
      cases hfn : firstNamedName iface.types.enum with
      | none =>
        rw [hfn] at hzz
        simp only [initMarkdown_outs] at hzz
        cases hfl : iface.functions with
        | nil =>
          rw [hfl] at hff
          refine ⟨[], [], ?_, by simp, by simp⟩
          rw [hff, hzz]
          simp
        | cons f0 fs =>
          rw [hfl] at hff
          obtain ⟨os, hc, he⟩ := hff
          refine ⟨[], [(true, "# Functions\n\n"), (false, "----\n\n"),
            (false, funcHdrStr f0.name)] ++ os, ?_, by simp, ?_⟩
          · rw [he, hzz]
            simp
          · exact ⟨os, hc, rfl⟩
      | some n =>
        rw [hfn] at hzz
        obtain ⟨os1, hc1, he1⟩ := hzz
        simp only [initMarkdown_outs, List.nil_append] at he1
        cases hfl : iface.functions with
        | nil =>
          rw [hfl] at hff
          refine ⟨[(true, "# Types\n\n"), (false, headerStr n)] ++ os1, [], ?_, ?_, by simp⟩
          · rw [hff, he1]
            simp
          · exact ⟨os1, hc1, rfl⟩
        | cons f0 fs =>
          rw [hfl] at hff
          obtain ⟨os2, hc2, he2⟩ := hff
          refine ⟨[(true, "# Types\n\n"), (false, headerStr n)] ++ os1,
            [(true, "# Functions\n\n"), (false, "----\n\n"),
              (false, funcHdrStr f0.name)] ++ os2, ?_, ?_, ?_⟩
          · rw [he2, he1]
            simp [List.append_assoc]
          · exact ⟨os1, hc1, rfl⟩
          · exact ⟨os2, hc2, rfl⟩

/-! ## Text-level helpers -/

theorem join_cons (a : String) (l : List String) :
    String.join (a :: l) = a ++ String.join l := by
  apply String.ext
  simp

@[simp] theorem outsStr_nil : outsStr [] = "" := rfl

theorem outsStr_cons (p : Bool × String) (os) : outsStr (p :: os) = p.2 ++ outsStr os := by
  simp [outsStr, join_cons]

theorem outsStr_append (a b : List (Bool × String)) :
    outsStr (a ++ b) = outsStr a ++ outsStr b := by
  simp [outsStr, join_append]

theorem outsStr_single (b : Bool) (s : String) : outsStr [(b, s)] = s := by
  apply String.ext
  simp [outsStr]

theorem src_mk (os : List (Bool × String)) (hr : List (String × String)) (fc ty : Nat) :
    (Markdown.mk os hr fc ty).src = outsStr os := rfl

theorem docsSrc_eq (d : Docs) : docsSrc d = outsStr (docsOuts d) := rfl

/-! ## Concrete fixtures for witnesses and counterexamples -/

/-- A constant layout oracle (size 8, alignment 4 for every type). -/
def exSA : SizeAlign := ⟨fun _ => 8, fun _ => 4⟩

/-- The spec's example: one record `point` with two `u32` fields. -/
def pointIface : Interface :=
  ⟨[⟨Option.some "point",
     TypeDefKind.record ⟨[⟨"x", Ty.u32, ⟨Option.none⟩⟩, ⟨"y", Ty.u32, ⟨Option.none⟩⟩]⟩,
     ⟨Option.none⟩⟩], [], []⟩

/-- An interface with an anonymous two-unit-case union (index 0), an
anonymous variant (index 1), an anonymous two-payload union (index 2), a
named alias to `list<char>` (index 3), and an anonymous `list<char>`
(index 4), and an anonymous `list<u8>` (index 5). -/
def miscIface : Interface :=
  ⟨[⟨Option.none, TypeDefKind.union ⟨[⟨Ty.unit, ⟨Option.none⟩⟩, ⟨Ty.unit, ⟨Option.none⟩⟩]⟩,
      ⟨Option.none⟩⟩,
    ⟨Option.none, TypeDefKind.variant ⟨[⟨"a", Ty.unit, ⟨Option.none⟩⟩]⟩, ⟨Option.none⟩⟩,
    ⟨Option.none, TypeDefKind.union ⟨[⟨Ty.u32, ⟨Option.none⟩⟩, ⟨Ty.string, ⟨Option.none⟩⟩]⟩,
      ⟨Option.none⟩⟩,
    ⟨Option.some "str", TypeDefKind.list Ty.char, ⟨Option.none⟩⟩,
    ⟨Option.none, TypeDefKind.list Ty.char, ⟨Option.none⟩⟩,
    ⟨Option.none, TypeDefKind.list Ty.u8, ⟨Option.none⟩⟩], [], []⟩

/-- An interface whose single record is named `foo-bar`. -/
def fooBarIface : Interface :=
  ⟨[⟨Option.some "foo-bar", TypeDefKind.record ⟨[]⟩, ⟨Option.none⟩⟩], [], []⟩

/-- One parameterless function `f` and no types. -/
def oneFuncIface : Interface :=
  ⟨[], [⟨"f", [], Ty.unit, ⟨Option.none⟩⟩], []⟩

/-- One named type and one one-parameter function. -/
def mixedIface : Interface :=
  ⟨[⟨Option.some "point",
     TypeDefKind.record ⟨[⟨"x", Ty.u32, ⟨Option.none⟩⟩]⟩, ⟨Option.none⟩⟩],
   [⟨"frob", [("a", Ty.u32)], Ty.unit, ⟨Option.none⟩⟩], []⟩

/-! ## The claims -/

/-- C4: for every type reference, the section text emitted by
`print_type_info` is the documentation block followed by the fixed-format
line `Size: <n>, Alignment: <n>`, where the two numbers are exactly the
layout oracle's `size`/`align` answers for that exact type reference
(`Type::Id(ty)`), in decimal (`Nat` `toString`) with no unit suffix — for
every oracle `sa`, i.e. the numbers are passed through verbatim; and the
anchor registry is untouched. -/
theorem c4_size_align_passthrough (sa : SizeAlign) (m : Markdown) (id : Nat) (d : Docs) :
    (print_type_info sa m id d).src
      = m.src ++ docsSrc d ++ "\n" ++ ("Size: " ++ toString (sa.size (Ty.id id)) ++ ", ")
        ++ ("Alignment: " ++ toString (sa.align (Ty.id id)) ++ "\n")
    ∧ (print_type_info sa m id d).hrefs = m.hrefs := by
  rw [print_type_info_eq]
  constructor
  · rw [src_appOuts]
    unfold infoOuts
    rw [outsStr_append, docsSrc_eq]
    rw [outsStr_cons, outsStr_cons, outsStr_single]
    simp [String.append_assoc]
  · simp

/-- C8: the type printer never mutates the anchor registry (nor either
banner counter): for every type reference and every state, a successful
`print_ty` call leaves `hrefs`, `funcs` and `types` exactly as they were. -/
theorem c8_print_ty_no_registry_mutation (iface : Interface) (fuel : Nat) (ty : Ty)
    (skip : Bool) (m m' : Markdown) (h : print_ty iface fuel ty skip m = Option.some m') :
    m'.hrefs = m.hrefs ∧ m'.funcs = m.funcs ∧ m'.types = m.types := by
  rw [print_ty_factor] at h
  cases h0 : print_ty iface fuel ty skip initMarkdown with
  | none => rw [h0] at h; cases h
  | some d =>
    rw [h0] at h
    simp at h
    rw [← h]
    exact ⟨rfl, rfl, rfl⟩

theorem c8_witness : ∃ m', print_ty pointIface 3 (Ty.id 0) false initMarkdown = Option.some m'
    ∧ m'.hrefs = initMarkdown.hrefs :=
  ⟨_, rfl, (c8_print_ty_no_registry_mutation pointIface 3 (Ty.id 0) false
    initMarkdown _ rfl).1⟩

/-- C9: rendering is deterministic — the embedding of `render` is a pure
function of the typed graph (its type table, function list and resource
table, i.e. the declaration order) and the bound layout oracle, starting
from a freshly constructed state, so any two calls on equal graphs return
the same output text and the same anchor map. -/
theorem c9_deterministic (sa : SizeAlign) (fuel : Nat) (i j : Interface)
    (h1 : i.types = j.types) (h2 : i.functions = j.functions)
    (h3 : i.resources = j.resources) :
    render i sa fuel = render j sa fuel
    ∧ (render i sa fuel).map (fun m => (m.src, m.hrefs))
      = (render j sa fuel).map (fun m => (m.src, m.hrefs)) := by
  cases i
  cases j
  simp only at h1 h2 h3
  subst h1
  subst h2
  subst h3
  exact ⟨rfl, rfl⟩

theorem c9_witness : render pointIface exSA 5 = render pointIface exSA 5
    ∧ (render pointIface exSA 5).map (fun m => (m.src, m.hrefs))
      = (render pointIface exSA 5).map (fun m => (m.src, m.hrefs)) :=
  c9_deterministic exSA 5 pointIface pointIface rfl rfl rfl

/-- Does `sub` occur as a prefix of `l`? -/
def listHasPre : List Char → List Char → Bool
  | _, [] => true
  | [], _ :: _ => false
  | c :: rest, d :: ds => c == d && listHasPre rest ds

/-- Does `sub` occur as a contiguous sublist of `l`? -/
def listHasSub (l sub : List Char) : Bool :=
  match l with
  | [] => sub.isEmpty
  | _ :: rest => listHasPre l sub || listHasSub rest sub

/-- Does `sub` occur as a substring of `s`? -/
def strHasSub (s sub : String) : Bool := listHasSub s.data sub.data

/-- The text `render` produces for the `point` example. -/
def pointSrc : String :=
  "# Types\n\n## <a href=\"#point\" name=\"point\"></a> `point`: record\n\n\nSize: 8, Alignment: 4\n\n### Record Fields\n\n- <a href=\"point.x\" name=\"point.x\"></a> [`x`](#point.x): `u32`\n\n\n- <a href=\"point.y\" name=\"point.y\"></a> [`y`](#point.y): `u32`\n\n\n"

set_option maxRecDepth 16384 in
/-- C2 (code bug evidence): rendering the spec's own `point` example, the
per-field anchor tags come out as `<a href="point.x" name="point.x">` —
the `href` attribute does not begin with `#`, unlike the type header's
`<a href="#point" name="point">` in the same output, so the claimed shape
`<a href="#ANCHOR" name="ANCHOR"></a>` is violated by the record (and
flags/variant/enum) body anchors. The last two conjuncts make the
divergence explicit: the `#`-less field anchor tag occurs in the output
and the `#`-form of it never does. -/
theorem c2_field_anchor_missing_hash :
    (render pointIface exSA 5).map Markdown.src = Option.some pointSrc
    ∧ strHasSub pointSrc "<a href=\"point.x\" name=\"point.x\">" = true
    ∧ strHasSub pointSrc "<a href=\"#point.x\"" = false := by
  refine ⟨rfl, by decide, by decide⟩

/-- C3 (counterexample): the anchors are `heck` snake case (lowercase with
underscores), not kebab: the type named `foo-bar` registers the anchor
`#foo_bar`, which differs from the lowercase-hyphenated form `#foo-bar`. -/
theorem c3_counterexample :
    (render fooBarIface exSA 5).map Markdown.hrefs
      = Option.some [("foo-bar", "#foo_bar")]
    ∧ ("#foo_bar" : String) ≠ "#foo-bar" := by
  refine ⟨by decide, by decide⟩

/-- C3 (amended): for every named type `T`, rendering `T`'s header
registers the key `T` mapped to `#` + snake(T) (lowercase, underscore
separated), and every inline link the type printer emits for a reference
to `T` is a markdown link whose target is that same string `#` + snake(T),
computed from the name alone (no registry lookup appears in `print_ty`). -/
theorem c3_anchor_agreement (iface : Interface) (fuel tid : Nat) (td : TypeDef)
    (name : String) (m : Markdown) (hty : iface.types.get? tid = Option.some td)
    (hname : td.name = Option.some name) :
    (print_type_header m name).hrefs = m.hrefs ++ [(name, "#" ++ toSnakeCase name)]
    ∧ (∀ mm, print_ty iface (fuel + 1) (Ty.id tid) false mm
        = Option.some (push mm ("[`" ++ name ++ "`](" ++ ("#" ++ toSnakeCase name) ++ ")"))) := by
  constructor
  · rw [print_type_header_eq]
    rfl
  · intro mm
    exact print_ty_id_link iface fuel tid td name hty hname mm

theorem c3_witness : ∃ m', print_ty pointIface 1 (Ty.id 0) false initMarkdown
      = Option.some m'
    ∧ (print_type_header initMarkdown "point").hrefs = [("point", "#" ++ toSnakeCase "point")]
    ∧ m'.src = "[`point`](" ++ ("#" ++ toSnakeCase "point") ++ ")" := by
  obtain ⟨h1, h2⟩ := c3_anchor_agreement pointIface 0 0
    ⟨Option.some "point", TypeDefKind.record ⟨[⟨"x", Ty.u32, ⟨Option.none⟩⟩,
      ⟨"y", Ty.u32, ⟨Option.none⟩⟩]⟩, ⟨Option.none⟩⟩ "point" initMarkdown rfl rfl
  refine ⟨_, h2 initMarkdown, ?_, by decide⟩
  rw [h1]
  rfl

/-- C7: a list-of-character type renders as the literal `` `string` ``
wherever the list arm of the printer is reached — inline for an anonymous
(or name-suppressed) `list<char>` reference, and in the expansion a named
alias to `list<char>` receives from `type_alias` — and the `list<...>`
spelling is produced only for a non-`char` element type, so `list<char>`
is never printed. -/
theorem c7_string_collapse (iface : Interface) (sa : SizeAlign) (fuel tid : Nat) (skip : Bool)
    (td : TypeDef) (m : Markdown) (hty : iface.types.get? tid = Option.some td) :
    (td.kind = TypeDefKind.list Ty.char → (skip = true ∨ td.name = Option.none) →
      print_ty iface (fuel + 1) (Ty.id tid) skip m = Option.some (push m "`string`"))
    ∧ (∀ t m2, td.kind = TypeDefKind.list t → t ≠ Ty.char →
        (skip = true ∨ td.name = Option.none) →
      print_ty iface (fuel + 1) (Ty.id tid) skip m = Option.some m2 →
      ∃ d, print_ty iface fuel t false initMarkdown = Option.some d
        ∧ m2 = appOuts m ([(false, "list<")] ++ d.outs ++ [(false, ">")]))
    ∧ (∀ name d, td.kind = TypeDefKind.list Ty.char → td.name = Option.some name →
      type_alias iface sa (fuel + 1) tid name (Ty.id tid) d m
        = Option.some (push (print_type_info sa (push (push (print_type_header m name)
            "`string`") "\n\n") tid d) "\n")) := by
  refine ⟨?_, ?_, ?_⟩
  · intro hk hfall
    rw [print_ty_id_eq iface fuel tid skip td hty hfall, hk]
  · intro t m2 hk hne hfall hpm
    rw [print_ty_id_eq iface fuel tid skip td hty hfall, hk] at hpm
    cases t
    case char => exact absurd rfl hne
    all_goals
      dsimp only at hpm
      rw [print_ty_factor] at hpm
      split at hpm
      · cases hpm
      next d heq =>
        simp at hpm
        obtain ⟨d0, hd0, hdd⟩ := Option.map_eq_some'.mp heq
        refine ⟨d0, hd0, ?_⟩
        rw [← hpm, ← hdd]
        simp [List.append_assoc]
  · intro name d hk _
    unfold type_alias
    rw [print_ty_id_eq iface fuel tid true td hty (Or.inl rfl), hk]

theorem c7_witness :
    print_ty miscIface 2 (Ty.id 4) false initMarkdown
        = Option.some (push initMarkdown "`string`")
    ∧ type_alias miscIface exSA 2 3 "str" (Ty.id 3) ⟨Option.none⟩ initMarkdown
        = Option.some (push (print_type_info exSA (push (push
            (print_type_header initMarkdown "str") "`string`") "\n\n") 3
            ⟨Option.none⟩) "\n")
    ∧ ∃ d, print_ty miscIface 1 Ty.u8 false initMarkdown = Option.some d
        ∧ appOuts initMarkdown [(false, "list<"), (false, "`u8`"), (false, ">")]
          = appOuts initMarkdown ([(false, "list<")] ++ d.outs ++ [(false, ">")]) := by
  refine ⟨(c7_string_collapse miscIface exSA 1 4 false _ initMarkdown rfl).1 rfl
      (Or.inr rfl),
    (c7_string_collapse miscIface exSA 1 3 true _ initMarkdown rfl).2.2 "str"
      ⟨Option.none⟩ rfl rfl, ?_⟩
  obtain ⟨d, hd, he⟩ := (c7_string_collapse miscIface exSA 1 5 false _ initMarkdown rfl).2.1
    Ty.u8 (appOuts initMarkdown [(false, "list<"), (false, "`u8`"), (false, ">")]) rfl
    (by decide) (Or.inr rfl) (by decide)
  exact ⟨d, hd, he⟩

/-! ## The union arm (C1) -/

/-- The trace the union-arm element loop produces (separator before every
element except, when `b` is `true`, the first). -/
def unionOuts (iface : Interface) (fuel : Nat) : Bool → List UnionCase → List (Bool × String)
  | _, [] => []
  | b, c :: rest => (if b then [] else [(false, ", ")]) ++ ptOuts iface fuel c.ty
      ++ unionOuts iface fuel false rest

/-- Comma-separated catenation, as the inline forms print their element
lists. -/
def sepJoin : List String → String
  | [] => ""
  | a :: rest => a ++ String.join (rest.map (fun x => ", " ++ x))

theorem union_fold_eq (iface : Interface) (fuel : Nat) (l : List UnionCase)
    (hok : ∀ c ∈ l, ptOk iface fuel c.ty) : ∀ (b : Bool) (m : Markdown),
    l.foldlM (fun (acc : Markdown × Bool) c =>
      (print_ty iface fuel c.ty false (if acc.2 then acc.1 else push acc.1 ", ")).map
        (fun m2 => (m2, false))) (m, b)
    = Option.some (appOuts m (unionOuts iface fuel b l), b && l.isEmpty) := by
  induction l with
  | nil =>
    intro b m
    simp [List.foldlM_nil, unionOuts]
  | cons c rest IH =>
    intro b m
    simp only [List.foldlM_cons, Option.bind_eq_bind]
    rw [print_ty_eq_of_ptOk iface fuel c.ty _ (hok c (by simp))]
    simp only [Option.map_some', Option.some_bind]
    rw [IH (fun c hc => hok c (by simp [hc])) false _]
    cases b <;> simp [unionOuts, List.append_assoc]

theorem outsStr_unionOuts_false (iface : Interface) (fuel : Nat) (l : List UnionCase) :
    outsStr (unionOuts iface fuel false l)
      = String.join (l.map (fun c => ", " ++ ptStr iface fuel c.ty)) := by
  induction l with
  | nil => rfl
  | cons c rest IH =>
    show outsStr ([(false, ", ")] ++ ptOuts iface fuel c.ty
      ++ unionOuts iface fuel false rest) = _
    rw [outsStr_append, outsStr_append, outsStr_single, IH]
    rw [List.map_cons, join_cons]
    simp [ptStr, String.append_assoc, Function.comp]

theorem outsStr_unionOuts_true (iface : Interface) (fuel : Nat) (l : List UnionCase) :
    outsStr (unionOuts iface fuel true l)
      = sepJoin (l.map (fun c => ptStr iface fuel c.ty)) := by
  cases l with
  | nil => rfl
  | cons c rest =>
    show outsStr (([] : List (Bool × String)) ++ ptOuts iface fuel c.ty
      ++ unionOuts iface fuel false rest) = _
    rw [outsStr_append, outsStr_append, outsStr_unionOuts_false]
    simp [sepJoin, ptStr, List.map_map, Function.comp_def]

/-- C1 (amended): when the type printer inlines a union (name-link
suppressed or anonymous), the output is always the generic
`union<T1, T2, …>` listing the printed payload types only — there is no
recognition of bool/option/result shapes — and inlining a variant (the
kind from which such shapes would have to be recognized) is a fatal error
(`unreachable!()`, modelled as `none` at every fuel). -/
theorem c1_union_inline_generic (iface : Interface) (fuel tid : Nat) (skip : Bool)
    (td : TypeDef) (hty : iface.types.get? tid = Option.some td)
    (hfall : skip = true ∨ td.name = Option.none) :
    (∀ u, td.kind = TypeDefKind.union u → (∀ c ∈ u.cases, ptOk iface fuel c.ty) →
      (print_ty iface (fuel + 1) (Ty.id tid) skip initMarkdown).map Markdown.src
        = Option.some ("union<" ++ sepJoin (u.cases.map (fun c => ptStr iface fuel c.ty))
            ++ ">"))
    ∧ (∀ v, td.kind = TypeDefKind.variant v →
        ∀ m, print_ty iface (fuel + 1) (Ty.id tid) skip m = Option.none) := by
  constructor
  · intro u hk hok
    rw [print_ty_id_eq iface fuel tid skip td hty hfall, hk]
    dsimp only
    rw [union_fold_eq iface fuel u.cases hok true (push initMarkdown "union<")]
    dsimp only
    have he : push (appOuts (push initMarkdown "union<")
        (unionOuts iface fuel true u.cases)) ">"
        = appOuts initMarkdown ([(false, "union<")] ++ unionOuts iface fuel true u.cases
            ++ [(false, ">")]) := by
      simp [List.append_assoc]
    rw [he]
    rw [Option.map_some', src_appOuts]
    rw [outsStr_append, outsStr_append, outsStr_single, outsStr_single,
      outsStr_unionOuts_true]
    have hs : initMarkdown.src = "" := rfl
    rw [hs]
    simp [String.append_assoc]
  · intro v hk m
    rw [print_ty_id_eq iface fuel tid skip td hty hfall, hk]

/-- C1 (counterexample): the union that structurally encodes a boolean —
exactly two payload-less (`unit`) cases — inlines as
`` union<`unit`, `unit`> ``, not as `` `bool` ``. -/
theorem c1_counterexample :
    (print_ty miscIface 2 (Ty.id 0) false initMarkdown).map Markdown.src
      = Option.some "union<`unit`, `unit`>"
    ∧ ("union<`unit`, `unit`>" : String) ≠ "`bool`" :=
  ⟨rfl, by decide⟩

theorem c1_witness :
    (print_ty miscIface 3 (Ty.id 2) false initMarkdown).map Markdown.src
      = Option.some ("union<" ++ sepJoin (([⟨Ty.u32, ⟨Option.none⟩⟩,
          ⟨Ty.string, ⟨Option.none⟩⟩] : List UnionCase).map
          (fun c => ptStr miscIface 2 c.ty)) ++ ">")
    ∧ print_ty miscIface 3 (Ty.id 1) false initMarkdown = Option.none := by
  refine ⟨(c1_union_inline_generic miscIface 2 2 false _ rfl (Or.inr rfl)).1
      ⟨[⟨Ty.u32, ⟨Option.none⟩⟩, ⟨Ty.string, ⟨Option.none⟩⟩]⟩ rfl
      (by intro c hc; fin_cases hc <;> decide),
    (c1_union_inline_generic miscIface 2 1 false _ rfl (Or.inr rfl)).2
      ⟨[⟨"a", Ty.unit, ⟨Option.none⟩⟩]⟩ rfl initMarkdown⟩

theorem src_def (m : Markdown) : m.src = outsStr m.outs := rfl

theorem outsStr_paramsOuts (iface : Interface) (fuel : Nat) (fname : String)
    (l : List (String × Ty)) :
    outsStr (paramsOuts iface fuel fname l)
      = String.join (l.map (fun p => paramEntryStr fname p.1 ++ ptStr iface fuel p.2
          ++ "\n")) := by
  induction l with
  | nil => rfl
  | cons p ps IH =>
    simp only [paramsOuts, List.flatMap_cons] at IH ⊢
    rw [outsStr_append, outsStr_cons, outsStr_append, outsStr_single, IH,
      List.map_cons, join_cons]
    simp [ptStr, String.append_assoc]

theorem outsStr_funcOuts (iface : Interface) (fuel : Nat) (f : Func) :
    outsStr (funcOuts iface fuel f)
      = "----\n\n" ++ funcHdrStr f.name ++ f.name ++ "` " ++ "\n\n" ++ docsSrc f.docs
        ++ (if f.params.length = 0 then ""
            else "##### Params\n\n" ++ String.join (f.params.map (fun p =>
              paramEntryStr f.name p.1 ++ ptStr iface fuel p.2 ++ "\n")))
        ++ "##### Result\n\n" ++ "- " ++ ptStr iface fuel f.result ++ "\n" ++ "\n" := by
  unfold funcOuts
  by_cases hp : f.params.length = 0 <;>
    simp [hp, outsStr_append, outsStr_cons, outsStr_single, docsSrc_eq,
      outsStr_paramsOuts, ptStr, String.append_assoc] <;>
    rfl

/-- C6: for every function the renderer emits, after the (first-function)
banner: the rule, the anchored header, the name, the docs; then a `Params`
subsection — one entry per parameter, anchored
`snake(function).snake(param)` and showing the printed parameter type —
exactly when the parameter list is non-empty; then always a single
`Result` subsection with one unlabeled entry holding the printed result
type (the only result form this code has). The function's anchor is the
only registry insertion. -/
theorem c6_function_sections (iface : Interface) (fuel : Nat) (f : Func) (m m' : Markdown)
    (h : funcStep iface fuel f m = Option.some m') :
    (∀ p ∈ f.params, ptOk iface fuel p.2) ∧ ptOk iface fuel f.result
    ∧ m'.src = m.src ++ (if m.funcs = 0 then "# Functions\n\n" else "")
        ++ "----\n\n" ++ funcHdrStr f.name ++ f.name ++ "` " ++ "\n\n" ++ docsSrc f.docs
        ++ (if f.params.length = 0 then ""
            else "##### Params\n\n" ++ String.join (f.params.map (fun p =>
              paramEntryStr f.name p.1 ++ ptStr iface fuel p.2 ++ "\n")))
        ++ "##### Result\n\n" ++ "- " ++ ptStr iface fuel f.result ++ "\n" ++ "\n"
    ∧ m'.hrefs = m.hrefs ++ [(f.name, anchorOf f.name)] := by
  obtain ⟨hok, hrok, he⟩ := funcStep_detail iface fuel f m m' h
  refine ⟨hok, hrok, ?_, by rw [he]⟩
  rw [he, src_def, src_def]
  show outsStr (m.outs ++ _ ++ funcOuts iface fuel f) = _
  rw [outsStr_append, outsStr_append, outsStr_funcOuts]
  by_cases hf : m.funcs = 0
  · simp [hf, outsStr_single, String.append_assoc]
    rfl
  · simp [hf, outsStr_single, String.append_assoc]

theorem c6_witness : ∃ m',
    funcStep mixedIface 5 ⟨"frob", [("a", Ty.u32)], Ty.unit, ⟨Option.none⟩⟩ initMarkdown
      = Option.some m'
    ∧ ptOk mixedIface 5 Ty.unit
    ∧ m'.hrefs = [("frob", anchorOf "frob")] := by
  refine ⟨_, rfl, ?_, ?_⟩
  · exact (c6_function_sections mixedIface 5
      ⟨"frob", [("a", Ty.u32)], Ty.unit, ⟨Option.none⟩⟩ initMarkdown _ rfl).2.1
  · have := (c6_function_sections mixedIface 5
      ⟨"frob", [("a", Ty.u32)], Ty.unit, ⟨Option.none⟩⟩ initMarkdown _ rfl).2.2.2
    simpa using this

/-! ## C5: banner emission -/

/-- Number of banner pushes of text `s` in the trace (only the two
`# Types` / `# Functions` banner sites push with the `true` tag). -/
def bannerCount (m : Markdown) (s : String) : Nat :=
  m.outs.countP (fun p => p.1 && p.2 == s)

theorem clean_countP (os : List (Bool × String)) (hc : Clean os) (s : String) :
    os.countP (fun p => p.1 && p.2 == s) = 0 := by
  rw [List.countP_eq_zero]
  intro a ha
  simp [hc a ha]

theorem firstNamedName_none_iff (l : List (Nat × TypeDef)) :
    firstNamedName l = Option.none ↔ countNamed l = 0 := by
  induction l with
  | nil => simp [firstNamedName, countNamed]
  | cons p rest IH =>
    cases hn : p.2.name with
    | none =>
      simp only [countNamed, List.countP_cons] at IH ⊢
      simp [firstNamedName, hn, IH]
    | some n =>
      simp [firstNamedName, hn, countNamed, List.countP_cons]

/-- C5 (amended): the `# Types` banner appears exactly once when the graph
has a named type and never otherwise, standing immediately before the
first named type's header, which opens the document; the `# Functions`
banner appears exactly once when the graph has a function and never
otherwise, but a `----` horizontal rule stands between the banner and the
first function's header (the banner is not immediately before the
header). -/
theorem c5_banner_structure (iface : Interface) (sa : SizeAlign) (fuel : Nat)
    (m' : Markdown) (h : render iface sa fuel = Option.some m') :
    bannerCount m' "# Types\n\n" = (if countNamed iface.types.enum = 0 then 0 else 1)
    ∧ bannerCount m' "# Functions\n\n" = (if iface.functions.length = 0 then 0 else 1)
    ∧ (∀ n, firstNamedName iface.types.enum = Option.some n →
        ∃ rest, m'.src = "# Types\n\n" ++ (headerStr n ++ rest))
    ∧ (∀ f0 fs, iface.functions = f0 :: fs →
        ∃ ts rest, m'.src = ts ++ ("# Functions\n\n"
            ++ ("----\n\n" ++ (funcHdrStr f0.name ++ rest)))) := by
  obtain ⟨-, -, -, tOuts, fOuts, houts, htm, hfm⟩ := render_shape iface sa fuel m' h
  have htc : tOuts.countP (fun p => p.1 && p.2 == "# Types\n\n")
        = (if countNamed iface.types.enum = 0 then 0 else 1)
      ∧ tOuts.countP (fun p => p.1 && p.2 == "# Functions\n\n") = 0 := by
    cases hfn : firstNamedName iface.types.enum with
    | none =>
      rw [hfn] at htm
      have htm2 : tOuts = [] := htm
      subst htm2
      rw [if_pos ((firstNamedName_none_iff _).mp hfn)]
      simp
    | some n =>
      rw [hfn] at htm
      have htm2 : ∃ os, Clean os
          ∧ tOuts = [(true, "# Types\n\n"), (false, headerStr n)] ++ os := htm
      obtain ⟨os, hc, he⟩ := htm2
      subst he
      have h0 : countNamed iface.types.enum ≠ 0 := by
        intro h0
        rw [← firstNamedName_none_iff, hfn] at h0
        cases h0
      rw [if_neg h0]
      constructor <;>
        simp [List.countP_cons, List.countP_append, clean_countP _ hc]
  have hfc : fOuts.countP (fun p => p.1 && p.2 == "# Functions\n\n")
        = (if iface.functions.length = 0 then 0 else 1)
      ∧ fOuts.countP (fun p => p.1 && p.2 == "# Types\n\n") = 0 := by
    cases hff : iface.functions with
    | nil =>
      rw [hff] at hfm
      have hfm2 : fOuts = [] := hfm
      subst hfm2
      simp [hff]
    | cons f0 fs =>
      rw [hff] at hfm
      have hfm2 : ∃ os, Clean os
          ∧ fOuts = [(true, "# Functions\n\n"), (false, "----\n\n"),
              (false, funcHdrStr f0.name)] ++ os := hfm
      obtain ⟨os, hc, he⟩ := hfm2
      subst he
      constructor <;>
        simp [List.countP_cons, List.countP_append, clean_countP _ hc]
  refine ⟨?_, ?_, ?_, ?_⟩
  · rw [bannerCount, houts, List.countP_append, htc.1, hfc.2]
    simp
  · rw [bannerCount, houts, List.countP_append, htc.2, hfc.1]
    simp
  · intro n hfn
    rw [hfn] at htm
    have htm2 : ∃ os, Clean os
        ∧ tOuts = [(true, "# Types\n\n"), (false, headerStr n)] ++ os := htm
    obtain ⟨os, -, he⟩ := htm2
    refine ⟨outsStr os ++ outsStr fOuts, ?_⟩
    rw [src_def, houts, outsStr_append, he, outsStr_append, outsStr_cons,
      outsStr_cons, outsStr_nil]
    simp [String.append_assoc]
  · intro f0 fs hff
    rw [hff] at hfm
    have hfm2 : ∃ os, Clean os
        ∧ fOuts = [(true, "# Functions\n\n"), (false, "----\n\n"),
            (false, funcHdrStr f0.name)] ++ os := hfm
    obtain ⟨os, -, he⟩ := hfm2
    refine ⟨outsStr tOuts, outsStr os, ?_⟩
    rw [src_def, houts, outsStr_append, he, outsStr_append, outsStr_cons,
      outsStr_cons, outsStr_cons, outsStr_nil]
    simp [String.append_assoc]

/-- The text `render` produces for the one-function example. -/
def oneFuncSrc : String :=
  "# Functions\n\n----\n\n#### <a href=\"#f\" name=\"f\"></a> `f` \n\n##### Result\n\n- `unit`\n\n"

set_option maxRecDepth 16384 in
/-- C5 (counterexample): in the rendered one-function document the
`# Functions` banner is not immediately followed by the function header —
a `----` rule intervenes — so the banner-immediately-before-header reading
fails for functions. -/
theorem c5_counterexample :
    (render oneFuncIface exSA 5).map Markdown.src = Option.some oneFuncSrc
    ∧ strHasSub oneFuncSrc ("# Functions\n\n" ++ funcHdrStr "f") = false
    ∧ strHasSub oneFuncSrc ("# Functions\n\n----\n\n" ++ funcHdrStr "f") = true :=
  ⟨rfl, by decide, by decide⟩

theorem c5_witness :
    firstNamedName mixedIface.types.enum = Option.some "point"
    ∧ ∃ m', render mixedIface exSA 5 = Option.some m'
        ∧ bannerCount m' "# Types\n\n" = 1
        ∧ ∃ rest, m'.src = "# Types\n\n" ++ (headerStr "point" ++ rest) := by
  refine ⟨rfl, _, rfl, ?_,
    (c5_banner_structure mixedIface exSA 5 _ rfl).2.2.1 "point" rfl⟩
  rw [(c5_banner_structure mixedIface exSA 5 _ rfl).1]
  decide

/-! ## C10: registry keys -/

/-- The spec's member list for a type kind: record fields, flags, variant
cases and enum cases; union cases, tuple elements and all other kinds
contribute no members. -/
def memberNames : TypeDefKind → List String
  | TypeDefKind.record r => r.fields.map RecField.name
  | TypeDefKind.flags fl => fl.flags.map Flag.name
  | TypeDefKind.variant v => v.cases.map Case.name
  | TypeDefKind.enum e => e.cases.map EnumCase.name
  | _ => []

/-- Claim-side description of the registry keys after a full pass: every
named type's name followed by `TypeName::memberName` for each of its
members, then every function's name — and nothing else. -/
def registryKeysSpec (iface : Interface) : List String :=
  iface.types.enum.flatMap (fun p =>
    match p.2.name with
    | Option.none => []
    | Option.some n => n :: (memberNames p.2.kind).map (fun mn => n ++ "::" ++ mn))
  ++ iface.functions.map Func.name

theorem memberPairs_keys (n : String) (k : TypeDefKind) :
    (memberPairs n k).map Prod.fst
      = (memberNames k).map (fun mn => n ++ "::" ++ mn) := by
  cases k <;> simp [memberPairs, memberNames, Function.comp_def]

theorem typeHrefPairs_keys (p : Nat × TypeDef) :
    (typeHrefPairs p).map Prod.fst
      = match p.2.name with
        | Option.none => []
        | Option.some n => n :: (memberNames p.2.kind).map (fun mn => n ++ "::" ++ mn) := by
  cases hn : p.2.name with
  | none => simp [typeHrefPairs, hn]
  | some n => simp [typeHrefPairs, hn, memberPairs_keys]

/-- C10: after a complete render pass the registry keys are exactly the
named types' names, `TypeName::memberName` for every record field, flag,
variant case and enum case of a named type, and the functions' names —
nothing else: parameters, union cases and tuple elements are never
inserted. -/
theorem c10_registry_keys (iface : Interface) (sa : SizeAlign) (fuel : Nat)
    (m' : Markdown) (h : render iface sa fuel = Option.some m') :
    m'.hrefs.map Prod.fst = registryKeysSpec iface := by
  obtain ⟨-, -, hhr, -⟩ := render_shape iface sa fuel m' h
  rw [hhr, registryKeysSpec, List.map_append]
  congr 1
  · induction iface.types.enum with
    | nil => rfl
    | cons p rest IH =>
      simp only [List.flatMap_cons, List.map_append, IH, typeHrefPairs_keys]
  · simp [Function.comp_def]

theorem c10_witness :
    ∃ m', render mixedIface exSA 5 = Option.some m'
      ∧ m'.hrefs.map Prod.fst = registryKeysSpec mixedIface
      ∧ registryKeysSpec mixedIface = ["point", "point::x", "frob"] :=
  ⟨_, rfl, c10_registry_keys mixedIface exSA 5 _ rfl, rfl⟩

end WitAbi
